import Mathlib

/-!
# workermanager: a worker pool over Go channels

Shallow embedding of `src/workermanager/main.go`.  The Go program is a set of
goroutines (the body of `StartWorkers`, `N` copies of `worker`, and the anonymous
goroutine that waits on the `sync.WaitGroup` and closes the output) communicating
over channels.  Each goroutine is embedded as a function that performs its next
atomic statement on an explicit program state; a run is a schedule, that is a list
naming which goroutine moves next.  Every interleaving of the goroutines is a
schedule, so a statement quantified over all schedules is a statement about every
run.
-/

set_option linter.unusedVariables false
set_option linter.unusedTactic false
set_option linter.unreachableTactic false
set_option maxRecDepth 1000000

/-- Result of scheduling one goroutine: `none` when it is blocked or has finished. -/
abbrev Maybe (σ : Type) : Type := Option σ

namespace workermanager

/-- Go `error` values (only their presence matters to the pool). -/
abbrev GoError : Type := String

/-- `type TaskFunc func(item interface{}) (interface{}, error)`. -/
abbrev TaskFunc (α : Type) : Type := α → Except GoError α

/-- `type options struct { useRateLimit bool; rateLimit time.Duration }`;
a `time.Duration` is a count of nanoseconds. -/
structure options where
  useRateLimit : Bool
  rateLimit : Int
deriving DecidableEq, Repr

/-- `type Option func(*options)`: the mutation through the pointer is state passing. -/
abbrev Option : Type := options → options

/-- `func WithRateLimit(limit time.Duration) Option`. -/
def WithRateLimit (limit : Int) : Option := fun opts =>
  { opts with useRateLimit := true, rateLimit := limit }

/-- Lines 27-30 of `StartWorkers`: `defaultOptions := options{}` followed by
`for _, opt := range opts { opt(&defaultOptions) }`. -/
def applyOptions (opts : List Option) : options :=
  opts.foldl (fun defaultOptions opt => opt defaultOptions)
    { useRateLimit := false, rateLimit := 0 }

/-- The `time.Ticker` behind `limiter`: its channel `ticker.C` has capacity one, so at
most one token is pending; `stopped` records `ticker.Stop()`. -/
structure Ticker where
  period : Int
  pending : Bool
  stopped : Bool
deriving DecidableEq, Repr

/-- Run-time panics the program can raise. -/
inductive Fault where
  | nonPositiveInterval
  | sendOnClosedChannel
  | closeOfClosedChannel
  | negativeCounter
deriving DecidableEq, Repr

/-- Program points of `worker` (lines 56-71). -/
inductive WorkerPc (α : Type) where
  | atRange
  | waitToken (item : α)
  | callTask (item : α)
  | sendResult (result : α)
  | deferred
  | exited
deriving DecidableEq, Repr

/-- One `worker` goroutine: its `id` argument, its program point, and the history of
the items it received, the items it passed to `taskFunc` and the values it wrote. -/
structure Worker (α : Type) where
  id : Int
  pc : WorkerPc α
  recvd : List α
  called : List α
  wrote : List α
deriving DecidableEq, Repr

/-- Program points of the body of `StartWorkers` (lines 26-54). -/
inductive MainPc where
  | entry
  | loopTest (i : Int)
  | goWorker (i : Int)
  | goCloser
  | println
  | deferred
  | returned
deriving DecidableEq, Repr

/-- Program points of the goroutine of lines 48-51. -/
inductive CloserPc where
  | notStarted
  | waiting
  | closing
  | finished
deriving DecidableEq, Repr

/-- Whole program state.  `toSend` is what the caller has still to send on `input`;
`input` is what has been sent and not yet received (no capacity bound is imposed,
which covers every buffer size including zero); `output` is everything written to the
output channel, whose reader always drains it.  `received`, `calls`, `log`, `closes`,
`ticks`, `tokensTaken` and `stdout` are histories kept for the statements. -/
structure State (α : Type) where
  mainPc : MainPc
  limiter : Maybe Ticker
  wg : Int
  workers : List (Worker α)
  closer : CloserPc
  toSend : List α
  input : List α
  inputClosed : Bool
  output : List α
  outputClosed : Bool
  fault : Maybe Fault
  received : List α
  calls : List α
  log : List (α × GoError)
  closes : Nat
  ticks : Nat
  tokensTaken : Nat
  stdout : List String
deriving DecidableEq, Repr

/-- One call of `StartWorkers` together with what the caller does with the input
channel: it sends `items` in order and then, when `closesInput`, closes it. -/
structure Setup (α : Type) where
  concurrentLimit : Int
  queueLimit : Int
  taskFunc : TaskFunc α
  opts : List Option
  items : List α
  closesInput : Bool

/-- State at the moment `StartWorkers` is called. -/
def init {α : Type} (items : List α) : State α :=
  { mainPc := .entry, limiter := none, wg := 0, workers := [], closer := .notStarted,
    toSend := items, input := [], inputClosed := false, output := [],
    outputClosed := false, fault := none, received := [], calls := [], log := [],
    closes := 0, ticks := 0, tokensTaken := 0, stdout := [] }

/-- The caller of the pool: sends the next item on `input`, or closes `input` once
everything has been sent. -/
def caller {α : Type} (closesInput : Bool) (s : State α) : Maybe (State α) :=
  match s.toSend with
  | item :: rest => some { s with toSend := rest, input := s.input ++ [item] }
  | [] =>
    if closesInput && !s.inputClosed then some { s with inputClosed := true } else none

/-- The runtime timer of a running ticker puts a token in `ticker.C` when the channel
has room; a tick that finds the channel full is dropped and changes nothing. -/
def tick {α : Type} (s : State α) : Maybe (State α) :=
  match s.limiter with
  | some t =>
    if !t.stopped && !t.pending then
      some { s with limiter := some { t with pending := true }, ticks := s.ticks + 1 }
    else none
  | none => none

/-- Next statement of `StartWorkers`.  Go's `int` loop counter is an integer here: it
cannot wrap around before `concurrentLimit` goroutines are alive. -/
def StartWorkers {α : Type} (concurrentLimit queueLimit : Int) (taskFunc : TaskFunc α)
    (opts : List Option) (s : State α) : Maybe (State α) :=
  match s.mainPc with
  | .entry =>
    let defaultOptions := applyOptions opts
    if defaultOptions.useRateLimit then
      -- `time.NewTicker` panics unless the period is positive
      if defaultOptions.rateLimit ≤ 0 then
        some { s with fault := some .nonPositiveInterval }
      else
        some { s with
          limiter := some { period := defaultOptions.rateLimit, pending := false,
                            stopped := false },
          wg := 0, mainPc := .loopTest 1 }
    else
      some { s with limiter := none, wg := 0, mainPc := .loopTest 1 }
  | .loopTest i =>
    if i ≤ concurrentLimit then
      some { s with wg := s.wg + 1, mainPc := .goWorker i }
    else
      some { s with mainPc := .goCloser }
  | .goWorker i =>
    some { s with
      workers := s.workers ++
        [{ id := i, pc := .atRange, recvd := [], called := [], wrote := [] }],
      mainPc := .loopTest (i + 1) }
  | .goCloser => some { s with closer := .waiting, mainPc := .println }
  | .println =>
    some { s with stdout := s.stdout ++ ["Workers started"], mainPc := .deferred }
  | .deferred =>
    match s.limiter with
    | some t => some { s with limiter := some { t with stopped := true },
                              mainPc := .returned }
    | none => some { s with mainPc := .returned }
  | .returned => none

/-- Next statement of the goroutine `go func() { wg.Wait(); close(output) }()`. -/
def closer {α : Type} (s : State α) : Maybe (State α) :=
  match s.closer with
  | .notStarted => none
  | .waiting => if s.wg = 0 then some { s with closer := .closing } else none
  | .closing =>
    if s.outputClosed then some { s with fault := some .closeOfClosedChannel }
    else some { s with outputClosed := true, closes := s.closes + 1,
                       closer := .finished }
  | .finished => none

/-- Next statement of the `k`-th `worker` goroutine (`id = k + 1`). -/
def worker {α : Type} (k : Nat) (taskFunc : TaskFunc α) (s : State α) :
    Maybe (State α) :=
  match s.workers[k]? with
  | none => none
  | some w =>
    match w.pc with
    | .atRange =>
      -- `for item := range input`
      match s.input with
      | item :: rest =>
        some { s with
          input := rest, received := s.received ++ [item],
          workers := s.workers.set k
            { w with
              pc := if s.limiter.isSome then .waitToken item else .callTask item,
              recvd := w.recvd ++ [item] } }
      | [] =>
        if s.inputClosed then
          some { s with workers := s.workers.set k { w with pc := .deferred } }
        else none
    | .waitToken item =>
      -- `<-limiter`
      match s.limiter with
      | some t =>
        if t.pending then
          some { s with
            limiter := some { t with pending := false },
            tokensTaken := s.tokensTaken + 1,
            workers := s.workers.set k { w with pc := .callTask item } }
        else none
      | none => none
    | .callTask item =>
      -- `result, err := taskFunc(item)`
      match taskFunc item with
      | .error err =>
        some { s with
          calls := s.calls ++ [item], log := s.log ++ [(item, err)],
          workers := s.workers.set k
            { w with pc := .atRange, called := w.called ++ [item] } }
      | .ok result =>
        some { s with
          calls := s.calls ++ [item],
          workers := s.workers.set k
            { w with pc := .sendResult result, called := w.called ++ [item] } }
    | .sendResult result =>
      -- `output <- result`
      if s.outputClosed then some { s with fault := some .sendOnClosedChannel }
      else
        some { s with
          output := s.output ++ [result],
          workers := s.workers.set k
            { w with pc := .atRange, wrote := w.wrote ++ [result] } }
    | .deferred =>
      -- `defer wg.Done()`
      if s.wg - 1 < 0 then some { s with fault := some .negativeCounter }
      else
        some { s with
          wg := s.wg - 1,
          workers := s.workers.set k { w with pc := .exited } }
    | .exited => none

/-- Who moves next. -/
inductive Action where
  | caller
  | tick
  | main
  | closer
  | worker (k : Nat)
deriving DecidableEq, Repr

/-- One step of the whole program; a panic stops every goroutine. -/
def step {α : Type} (c : Setup α) (s : State α) (a : Action) : Maybe (State α) :=
  match s.fault with
  | some _ => none
  | none =>
    match a with
    | .caller => caller c.closesInput s
    | .tick => tick s
    | .main => StartWorkers c.concurrentLimit c.queueLimit c.taskFunc c.opts s
    | .closer => closer s
    | .worker k => worker k c.taskFunc s

/-- A scheduled goroutine that cannot move leaves the state unchanged. -/
def next {α : Type} (c : Setup α) (s : State α) (a : Action) : State α :=
  (step c s a).getD s

/-- State after a schedule, from `s`. -/
def execFrom {α : Type} (c : Setup α) (s : State α) (sched : List Action) : State α :=
  sched.foldl (next c) s

/-- State after a schedule, from the call of `StartWorkers`. -/
def exec {α : Type} (c : Setup α) (sched : List Action) : State α :=
  execFrom c (init c.items) sched

/-- The goroutines that exist in `s`, with the caller and the timer. -/
def actions {α : Type} (s : State α) : List Action :=
  [.caller, .tick, .main, .closer] ++ (List.range s.workers.length).map .worker

/-- Nothing can move: the run is complete (or stuck). -/
def Terminal {α : Type} (c : Setup α) (s : State α) : Prop :=
  ∀ a, step c s a = none

/-- Executable form of `Terminal`. -/
def terminalB {α : Type} (c : Setup α) (s : State α) : Bool :=
  (actions s).all (fun a => (step c s a).isNone)

/-- Sum of a per-worker quantity over the pool. -/
def tally {α : Type} (g : Worker α → Nat) (ws : List (Worker α)) : Nat :=
  (ws.map g).sum

/-- A worker that has not yet run its `wg.Done()` to completion counts as one. -/
def live {α : Type} (w : Worker α) : Nat :=
  match w.pc with
  | .exited => 0
  | _ => 1

/-- The program point contributes one to the counter between `wg.Add(1)` and the `go`
statement that follows it. -/
@[simp]
def MainPc.added : MainPc → Int
  | .goWorker _ => 1
  | _ => 0

/-- The `go func()` statement of line 48 has not been executed yet. -/
@[simp]
def MainPc.beforeCloser : MainPc → Bool
  | .entry => true
  | .loopTest _ => true
  | .goWorker _ => true
  | .goCloser => true
  | _ => false

/-- Relation between the loop counter and the workers spawned so far. -/
@[simp]
def MainPc.spawned (n : Int) (len : Nat) : MainPc → Prop
  | .entry => len = 0
  | .loopTest i => i = len + 1 ∧ (len = 0 ∨ (len : Int) ≤ n)
  | .goWorker i => i = len + 1 ∧ i ≤ n
  | _ => (len = 0 ∧ n ≤ 0) ∨ (len : Int) = n

/-- The item a worker has received and not yet passed to `taskFunc`. -/
def held {α : Type} (w : Worker α) : List α :=
  match w.pc with
  | .waitToken item => [item]
  | .callTask item => [item]
  | _ => []

/-- The result a worker has obtained and not yet written to the output. -/
def unsent {α : Type} (w : Worker α) : List α :=
  match w.pc with
  | .sendResult result => [result]
  | _ => []

/-- Occurrences of `a` among the items a worker holds. -/
def heldCount {α : Type} [DecidableEq α] (a : α) (w : Worker α) : Nat :=
  (held w).count a

/-- Occurrences of `b` among the results a worker has still to write. -/
def unsentCount {α : Type} [DecidableEq α] (b : α) (w : Worker α) : Nat :=
  (unsent w).count b

/-- A worker that holds a token it has not yet spent on a call of `taskFunc`. -/
def inCall {α : Type} (w : Worker α) : Nat :=
  match w.pc with
  | .callTask _ => 1
  | _ => 0

/-- Tokens sitting in the ticker channel. -/
def pendingTokens : Maybe Ticker → Nat
  | some t => if t.pending then 1 else 0
  | none => 0

/-- Results of the successful invocations of `taskFunc` on `xs`, in order. -/
def successes {α : Type} (taskFunc : TaskFunc α) (xs : List α) : List α :=
  xs.filterMap (fun x => (taskFunc x).toOption)

/-- What a single worker's histories satisfy at each of its program points: every
received item has been passed to `taskFunc` once, in order, except the one in hand,
and what it wrote is the successful results, in order, except the one in hand. -/
def WorkerOk {α : Type} (taskFunc : TaskFunc α) (w : Worker α) : Prop :=
  match w.pc with
  | .waitToken item =>
    w.recvd = w.called ++ [item] ∧ w.wrote = successes taskFunc w.called
  | .callTask item =>
    w.recvd = w.called ++ [item] ∧ w.wrote = successes taskFunc w.called
  | .sendResult result =>
    w.recvd = w.called ∧ w.wrote ++ [result] = successes taskFunc w.called
  | _ => w.recvd = w.called ∧ w.wrote = successes taskFunc w.called

/-- Statements `StartWorkers` has still to execute, counting two for every worker it
will still spawn. -/
def MainPc.fuel (n : Int) : MainPc → Nat
  | .entry => 4 * n.toNat + 6
  | .loopTest i => 4 * (n + 1 - i).toNat + 4
  | .goWorker i => 4 * (n + 1 - i).toNat + 3
  | .goCloser => 3
  | .println => 2
  | .deferred => 1
  | .returned => 0

/-- Statements the closing goroutine has still to execute. -/
def CloserPc.fuel : CloserPc → Nat
  | .notStarted => 2
  | .waiting => 2
  | .closing => 1
  | .finished => 0

/-- Statements a worker has still to execute once the input is exhausted. -/
def workerFuel {α : Type} (w : Worker α) : Nat :=
  match w.pc with
  | .atRange => 2
  | .waitToken _ => 6
  | .callTask _ => 4
  | .sendResult _ => 3
  | .deferred => 1
  | .exited => 0

/-- Ticks a running ticker can still deliver before a worker takes the token. -/
def tickFuel : Maybe Ticker → Nat
  | some t => if !t.stopped && !t.pending then 1 else 0
  | none => 0

/-- Bound on the number of steps the program can still take. -/
def fuel {α : Type} (c : Setup α) (s : State α) : Nat :=
  s.mainPc.fuel c.concurrentLimit + s.closer.fuel + 6 * s.toSend.length
    + 5 * s.input.length + (if s.inputClosed then 0 else 1)
    + (if s.fault.isSome then 0 else 1) + tickFuel s.limiter
    + tally workerFuel s.workers

/-- Task function of the first scenario of the specification: doubles an integer. -/
def double : TaskFunc Int := fun item => .ok (2 * item)

/-- Three workers, the doubling task, input 1..5 then closed, no rate limit. -/
def doubling : Setup Int :=
  { concurrentLimit := 3, queueLimit := 0, taskFunc := double, opts := [],
    items := [1, 2, 3, 4, 5], closesInput := true }

/-- Round-robin schedule over the caller, `StartWorkers`, the closing goroutine and
three workers. -/
def roundRobin (rounds : Nat) : List Action :=
  (List.replicate rounds
    [Action.caller, .main, .closer, .worker 0, .worker 1, .worker 2]).flatten

/-- Task function of the second scenario of the specification: fails on even inputs
and passes odd inputs through. -/
def oddsOnly : TaskFunc Int := fun item =>
  if item % 2 = 0 then .error "even input" else .ok item

/-- Two workers, the task that fails on even inputs, input 1..4 then closed. -/
def filtering : Setup Int :=
  { concurrentLimit := 2, queueLimit := 0, taskFunc := oddsOnly, opts := [],
    items := [1, 2, 3, 4], closesInput := true }

/-- Task function that fails on every item. -/
def alwaysFails : TaskFunc Int := fun _ => .error "failed"

/-- Two workers, the task that always fails, input 1..3 then closed. -/
def failing : Setup Int :=
  { concurrentLimit := 2, queueLimit := 0, taskFunc := alwaysFails, opts := [],
    items := [1, 2, 3], closesInput := true }

/-- Degenerate pool with a negative `concurrentLimit`, input 7 then closed. -/
def negativeLimit : Setup Int :=
  { concurrentLimit := -2, queueLimit := 0, taskFunc := double, opts := [],
    items := [7], closesInput := true }

/-- Degenerate pool with a rate limiter of period zero: `concurrentLimit = 0`, option
`WithRateLimit 0`, input 1, 2 then closed. -/
def zeroPeriod : Setup Int :=
  { concurrentLimit := 0, queueLimit := 0, taskFunc := double,
    opts := [WithRateLimit 0], items := [1, 2], closesInput := true }

/-- Degenerate pool with a rate limiter of positive period: `concurrentLimit = 0`,
option `WithRateLimit 1000`, input 1, 2 then closed. -/
def idleThrottled : Setup Int :=
  { concurrentLimit := 0, queueLimit := 0, taskFunc := double,
    opts := [WithRateLimit 1000], items := [1, 2], closesInput := true }

/-- Degenerate pool: `concurrentLimit = 0`, the doubling task, input 1, 2 then closed. -/
def noWorkers : Setup Int :=
  { concurrentLimit := 0, queueLimit := 0, taskFunc := double, opts := [],
    items := [1, 2], closesInput := true }

/-- Two workers behind a rate limiter of period 1000, the doubling task, input 1, 2,
3 then closed. -/
def throttled : Setup Int :=
  { concurrentLimit := 2, queueLimit := 0, taskFunc := double,
    opts := [WithRateLimit 1000], items := [1, 2, 3], closesInput := true }

/-- A run of `throttled` in which the timer ticks twice while `StartWorkers` is still
spawning, so that two items get processed. -/
def tickingSchedule : List Action :=
  [.main, .caller, .caller, .caller, .caller, .main, .main, .tick, .worker 0, .worker 0,
   .tick, .worker 0, .worker 0, .main, .main, .worker 1, .worker 1, .worker 1, .worker 1]

/-- A run of `throttled` in which `StartWorkers` returns before the timer ever ticks. -/
def promptReturn : List Action :=
  [.main, .main, .main, .main, .main, .main, .main, .main, .main,
   .caller, .caller, .caller, .caller, .worker 0, .worker 1]

/-- One worker, the doubling task, no input items, the caller closes the input. -/
def lone : Setup Int :=
  { concurrentLimit := 1, queueLimit := 0, taskFunc := double, opts := [],
    items := [], closesInput := true }

/-- Run of `lone` up to the moment the only worker has executed `wg.Done()`. -/
def untilDone : List Action :=
  [.main, .main, .main, .main, .main, .caller, .worker 0, .worker 0]

end workermanager

open workermanager

section Relations

variable {α : Type}

/-- The atomic statements of the program, one constructor per statement and outcome:
the relational reading of `step`. -/
inductive Moves (c : Setup α) (s : State α) : State α → Prop
  | send (item : α) (rest : List α) (h : s.toSend = item :: rest) :
    Moves c s { s with toSend := rest, input := s.input ++ [item] }
  | closeInput (h : s.toSend = []) (hc : c.closesInput = true)
    (hn : s.inputClosed = false) :
    Moves c s { s with inputClosed := true }
  | tick (t : Ticker) (h : s.limiter = some t) (hs : t.stopped = false)
    (hp : t.pending = false) :
    Moves c s { s with limiter := some { t with pending := true }, ticks := s.ticks + 1 }
  | badTicker (h : s.mainPc = .entry) (hu : (applyOptions c.opts).useRateLimit = true)
    (hr : (applyOptions c.opts).rateLimit ≤ 0) :
    Moves c s { s with fault := some .nonPositiveInterval }
  | newTicker (h : s.mainPc = .entry) (hu : (applyOptions c.opts).useRateLimit = true)
    (hr : ¬ (applyOptions c.opts).rateLimit ≤ 0) :
    Moves c s { s with
      limiter := some { period := (applyOptions c.opts).rateLimit, pending := false,
                        stopped := false },
      wg := 0, mainPc := .loopTest 1 }
  | noTicker (h : s.mainPc = .entry) (hu : ¬ (applyOptions c.opts).useRateLimit = true) :
    Moves c s { s with limiter := none, wg := 0, mainPc := .loopTest 1 }
  | add (i : Int) (h : s.mainPc = .loopTest i) (hi : i ≤ c.concurrentLimit) :
    Moves c s { s with wg := s.wg + 1, mainPc := .goWorker i }
  | loopEnd (i : Int) (h : s.mainPc = .loopTest i) (hi : ¬ i ≤ c.concurrentLimit) :
    Moves c s { s with mainPc := .goCloser }
  | spawn (i : Int) (h : s.mainPc = .goWorker i) :
    Moves c s { s with
      workers := s.workers ++
        [{ id := i, pc := .atRange, recvd := [], called := [], wrote := [] }],
      mainPc := .loopTest (i + 1) }
  | spawnCloser (h : s.mainPc = .goCloser) :
    Moves c s { s with closer := .waiting, mainPc := .println }
  | println (h : s.mainPc = .println) :
    Moves c s { s with stdout := s.stdout ++ ["Workers started"], mainPc := .deferred }
  | stopTicker (t : Ticker) (h : s.mainPc = .deferred) (ht : s.limiter = some t) :
    Moves c s { s with limiter := some { t with stopped := true }, mainPc := .returned }
  | ret (h : s.mainPc = .deferred) (ht : s.limiter = none) :
    Moves c s { s with mainPc := .returned }
  | waitDone (h : s.closer = .waiting) (hw : s.wg = 0) :
    Moves c s { s with closer := .closing }
  | closeTwice (h : s.closer = .closing) (ho : s.outputClosed = true) :
    Moves c s { s with fault := some .closeOfClosedChannel }
  | close (h : s.closer = .closing) (ho : ¬ s.outputClosed = true) :
    Moves c s { s with outputClosed := true, closes := s.closes + 1, closer := .finished }
  | recv (k : Nat) (w : Worker α) (item : α) (rest : List α)
    (hw : s.workers[k]? = some w) (hpc : w.pc = .atRange) (hin : s.input = item :: rest) :
    Moves c s { s with
      input := rest, received := s.received ++ [item],
      workers := s.workers.set k
        { w with
          pc := if s.limiter.isSome then .waitToken item else .callTask item,
          recvd := w.recvd ++ [item] } }
  | rangeEnd (k : Nat) (w : Worker α)
    (hw : s.workers[k]? = some w) (hpc : w.pc = .atRange) (hin : s.input = [])
    (hc : s.inputClosed = true) :
    Moves c s { s with workers := s.workers.set k { w with pc := .deferred } }
  | token (k : Nat) (w : Worker α) (item : α) (t : Ticker)
    (hw : s.workers[k]? = some w) (hpc : w.pc = .waitToken item)
    (ht : s.limiter = some t) (hp : t.pending = true) :
    Moves c s { s with
      limiter := some { t with pending := false },
      tokensTaken := s.tokensTaken + 1,
      workers := s.workers.set k { w with pc := .callTask item } }
  | callError (k : Nat) (w : Worker α) (item : α) (err : GoError)
    (hw : s.workers[k]? = some w) (hpc : w.pc = .callTask item)
    (hf : c.taskFunc item = .error err) :
    Moves c s { s with
      calls := s.calls ++ [item], log := s.log ++ [(item, err)],
      workers := s.workers.set k
        { w with pc := .atRange, called := w.called ++ [item] } }
  | callOk (k : Nat) (w : Worker α) (item result : α)
    (hw : s.workers[k]? = some w) (hpc : w.pc = .callTask item)
    (hf : c.taskFunc item = .ok result) :
    Moves c s { s with
      calls := s.calls ++ [item],
      workers := s.workers.set k
        { w with pc := .sendResult result, called := w.called ++ [item] } }
  | writeClosed (k : Nat) (w : Worker α) (result : α)
    (hw : s.workers[k]? = some w) (hpc : w.pc = .sendResult result)
    (ho : s.outputClosed = true) :
    Moves c s { s with fault := some .sendOnClosedChannel }
  | write (k : Nat) (w : Worker α) (result : α)
    (hw : s.workers[k]? = some w) (hpc : w.pc = .sendResult result)
    (ho : ¬ s.outputClosed = true) :
    Moves c s { s with
      output := s.output ++ [result],
      workers := s.workers.set k
        { w with pc := .atRange, wrote := w.wrote ++ [result] } }
  | doneNegative (k : Nat) (w : Worker α)
    (hw : s.workers[k]? = some w) (hpc : w.pc = .deferred) (hn : s.wg - 1 < 0) :
    Moves c s { s with fault := some .negativeCounter }
  | done (k : Nat) (w : Worker α)
    (hw : s.workers[k]? = some w) (hpc : w.pc = .deferred) (hn : ¬ s.wg - 1 < 0) :
    Moves c s { s with
      wg := s.wg - 1,
      workers := s.workers.set k { w with pc := .exited } }

/-- Control-flow facts that hold in every state of every run. -/
structure Control (c : Setup α) (s : State α) : Prop where
  spawned : s.mainPc.spawned c.concurrentLimit s.workers.length
  started : s.closer = .notStarted ↔ s.mainPc.beforeCloser = true
  counter : s.wg = (tally live s.workers : Int) + s.mainPc.added
  waited : s.closer = .closing ∨ s.closer = .finished → s.wg = 0
  closed : s.outputClosed = true ↔ s.closer = .finished
  closes : s.closes = if s.closer = .finished then 1 else 0
  fault : ∀ f, s.fault = some f → f = .nonPositiveInterval ∧ s.mainPc = .entry ∧
    (applyOptions c.opts).useRateLimit = true ∧ (applyOptions c.opts).rateLimit ≤ 0
  entry : s.mainPc = .entry → s.limiter = none
  limiterOn : s.mainPc ≠ .entry → s.limiter.isSome = (applyOptions c.opts).useRateLimit
  ticker : ∀ t, s.limiter = some t → t.period = (applyOptions c.opts).rateLimit ∧
    0 < (applyOptions c.opts).rateLimit ∧ (t.stopped = true ↔ s.mainPc = .returned)

/-- Accounting facts about items, tokens and results that hold in every state. -/
structure Data [DecidableEq α] (c : Setup α) (s : State α) : Prop where
  tokens : s.tokensTaken + pendingTokens s.limiter = s.ticks
  paid : (applyOptions c.opts).useRateLimit = true →
    s.calls.length + tally inCall s.workers = s.tokensTaken
  unthrottled : s.limiter = none → ∀ w ∈ s.workers, ∀ x, w.pc ≠ .waitToken x
  stream : s.received ++ s.input ++ s.toSend = c.items
  closedInput : s.inputClosed = true → s.toSend = [] ∧ c.closesInput = true
  drained : ∀ w ∈ s.workers, w.pc = .deferred ∨ w.pc = .exited →
    s.input = [] ∧ s.inputClosed = true
  items : ∀ a, s.calls.count a + tally (heldCount a) s.workers
    = s.received.count a
  results : ∀ b, s.output.count b + tally (unsentCount b) s.workers
    = (successes c.taskFunc s.calls).count b
  sequential : ∀ w ∈ s.workers, WorkerOk c.taskFunc w
  idle : s.workers = [] → s.received = [] ∧ s.calls = [] ∧ s.output = []

end Relations


section Basics

variable {α : Type}

theorem execFrom_append (c : Setup α) (s : State α) (xs ys : List Action) :
    execFrom c s (xs ++ ys) = execFrom c (execFrom c s xs) ys := by
  simp [execFrom, List.foldl_append]

theorem exec_append (c : Setup α) (xs ys : List Action) :
    exec c (xs ++ ys) = execFrom c (exec c xs) ys := by
  simp [exec, execFrom_append]

/-- Induction over the states reachable from `s0`. -/
theorem execFrom_induction (c : Setup α) (P : State α → Prop) (s0 : State α)
    (h0 : P s0)
    (hstep : ∀ s a s', P s → step c s a = some s' → P s') :
    ∀ sched, P (execFrom c s0 sched) := by
  intro sched
  induction sched using List.reverseRecOn with
  | nil => simpa [execFrom] using h0
  | append_singleton xs a ih =>
    rw [execFrom_append]
    show P (next c (execFrom c s0 xs) a)
    cases h : step c (execFrom c s0 xs) a with
    | none => simpa [next, h] using ih
    | some s' => simpa [next, h] using hstep _ a s' ih h

theorem tally_append (g : Worker α → Nat) (xs ys : List (Worker α)) :
    tally g (xs ++ ys) = tally g xs + tally g ys := by
  simp [tally]

theorem tally_single (g : Worker α → Nat) (w : Worker α) : tally g [w] = g w := by
  simp [tally]

theorem tally_set (g : Worker α → Nat) (ws : List (Worker α)) (k : Nat)
    (w w' : Worker α) (h : ws[k]? = some w) :
    tally g (ws.set k w') + g w = tally g ws + g w' := by
  induction ws generalizing k with
  | nil => simp at h
  | cons x xs ih =>
    cases k with
    | zero =>
      simp at h
      subst h
      simp [tally]
      omega
    | succ k =>
      simp at h
      have := ih k h
      simp [tally] at this ⊢
      omega

theorem tally_eq_zero (g : Worker α → Nat) (ws : List (Worker α)) :
    tally g ws = 0 ↔ ∀ w ∈ ws, g w = 0 := by
  induction ws with
  | nil => simp [tally]
  | cons x xs ih =>
    simp [tally] at ih ⊢
    intro _
    exact ih

theorem tally_pos_of_mem (g : Worker α → Nat) (ws : List (Worker α)) (w : Worker α)
    (hw : w ∈ ws) : g w ≤ tally g ws := by
  induction ws with
  | nil => simp at hw
  | cons x xs ih =>
    simp [tally] at hw ⊢
    rcases hw with rfl | hw
    · omega
    · have := ih hw
      simp [tally] at this
      omega

theorem mem_of_getElem? {ws : List (Worker α)} {k : Nat} {w : Worker α}
    (h : ws[k]? = some w) : w ∈ ws := by
  rw [List.getElem?_eq_some] at h
  obtain ⟨hk, rfl⟩ := h
  exact List.getElem_mem _

end Basics

section Transitions

variable {α : Type}

theorem fault_none_of_step {c : Setup α} {s s' : State α} {a : Action}
    (h : step c s a = some s') : s.fault = none := by
  cases hf : s.fault with
  | none => rfl
  | some f => simp [workermanager.step, hf] at h

/-- Every step of the program is one of the atomic statements. -/
theorem moves_of_step {c : Setup α} {s s' : State α} {a : Action}
    (h : step c s a = some s') : Moves c s s' := by
  have hf := fault_none_of_step h
  simp only [workermanager.step, hf] at h
  cases a with
  | caller =>
    simp only [caller] at h
    split at h
    · next item rest heq => cases h; exact .send item rest heq
    · next heq =>
      split at h
      · next hc => cases h; simp at hc; exact .closeInput heq hc.1 hc.2
      · simp at h
  | tick =>
    simp only [tick] at h
    split at h
    · next t heq =>
      split at h
      · next hc => cases h; simp at hc; exact .tick t heq hc.1 hc.2
      · simp at h
    · simp at h
  | main =>
    simp only [StartWorkers] at h
    split at h
    · next heq =>
      split at h
      · next hu =>
        split at h
        · next hr => cases h; exact .badTicker heq hu hr
        · next hr => cases h; exact .newTicker heq hu hr
      · next hu => cases h; exact .noTicker heq hu
    · next i heq =>
      split at h
      · next hi => cases h; exact .add i heq hi
      · next hi => cases h; exact .loopEnd i heq hi
    · next i heq => cases h; exact .spawn i heq
    · next heq => cases h; exact .spawnCloser heq
    · next heq => cases h; exact .println heq
    · next heq =>
      split at h
      · next t ht => cases h; exact .stopTicker t heq ht
      · next ht => cases h; exact .ret heq ht
    · simp at h
  | closer =>
    simp only [closer] at h
    split at h
    · simp at h
    · next heq =>
      split at h
      · next hw => cases h; exact .waitDone heq hw
      · simp at h
    · next heq =>
      split at h
      · next ho => cases h; exact .closeTwice heq ho
      · next ho => cases h; exact .close heq ho
    · simp at h
  | worker k =>
    simp only [worker] at h
    split at h
    · simp at h
    · next w hw =>
      split at h
      · next hpc =>
        split at h
        · next item rest hin => cases h; exact .recv k w item rest hw hpc hin
        · next hin =>
          split at h
          · next hc => cases h; exact .rangeEnd k w hw hpc hin hc
          · simp at h
      · next item hpc =>
        split at h
        · next t ht =>
          split at h
          · next hp => cases h; exact .token k w item t hw hpc ht hp
          · simp at h
        · simp at h
      · next item hpc =>
        split at h
        · next err hf => cases h; exact .callError k w item err hw hpc hf
        · next result hf => cases h; exact .callOk k w item result hw hpc hf
      · next result hpc =>
        split at h
        · next ho => cases h; exact .writeClosed k w result hw hpc ho
        · next ho => cases h; exact .write k w result hw hpc ho
      · next hpc =>
        split at h
        · next hn => cases h; exact .doneNegative k w hw hpc hn
        · next hn => cases h; exact .done k w hw hpc hn
      · simp at h

end Transitions

section ControlInvariant

variable {α : Type}

theorem control_init (c : Setup α) : Control c (init c.items) := by
  constructor <;> simp [workermanager.init, tally]

theorem spawned_moves {c : Setup α} {s s' : State α}
    (h1 : s.mainPc.spawned c.concurrentLimit s.workers.length)
    (h : Moves c s s') : s'.mainPc.spawned c.concurrentLimit s'.workers.length := by
  cases h <;> try assumption
  case newTicker h hu hr => rw [h] at h1; simp at h1 ⊢; simp [h1]
  case noTicker h hu => rw [h] at h1; simp at h1 ⊢; simp [h1]
  case add i h hi => rw [h] at h1; simp only [MainPc.spawned] at h1 ⊢; omega
  case loopEnd i h hi => rw [h] at h1; simp only [MainPc.spawned] at h1 ⊢; omega
  case spawn i h =>
    rw [h] at h1
    simp only [MainPc.spawned, List.length_append, List.length_singleton] at h1 ⊢
    omega
  case spawnCloser h => rw [h] at h1; exact h1
  case println h => rw [h] at h1; exact h1
  case stopTicker t h ht => rw [h] at h1; exact h1
  case ret h ht => rw [h] at h1; exact h1
  all_goals (simp only [List.length_set]; exact h1)

theorem started_moves {c : Setup α} {s s' : State α}
    (h2 : s.closer = .notStarted ↔ s.mainPc.beforeCloser = true)
    (h : Moves c s s') : s'.closer = .notStarted ↔ s'.mainPc.beforeCloser = true := by
  cases h <;> first | assumption | (simp_all; done)

theorem closed_moves {c : Setup α} {s s' : State α}
    (h2 : s.closer = .notStarted ↔ s.mainPc.beforeCloser = true)
    (h5 : s.outputClosed = true ↔ s.closer = .finished)
    (h : Moves c s s') : s'.outputClosed = true ↔ s'.closer = .finished := by
  cases h <;> first | assumption | (simp_all; done)

theorem closes_moves {c : Setup α} {s s' : State α}
    (h2 : s.closer = .notStarted ↔ s.mainPc.beforeCloser = true)
    (h6 : s.closes = if s.closer = .finished then 1 else 0)
    (h : Moves c s s') : s'.closes = if s'.closer = .finished then 1 else 0 := by
  cases h <;> first | assumption | (simp_all; done)

theorem entry_moves {c : Setup α} {s s' : State α}
    (h8 : s.mainPc = .entry → s.limiter = none)
    (h : Moves c s s') : s'.mainPc = .entry → s'.limiter = none := by
  cases h <;> first | assumption | (simp_all; done)

theorem limiterOn_moves {c : Setup α} {s s' : State α}
    (h8 : s.mainPc = .entry → s.limiter = none)
    (h9 : s.mainPc ≠ .entry → s.limiter.isSome = (applyOptions c.opts).useRateLimit)
    (h : Moves c s s') : s'.mainPc ≠ .entry → s'.limiter.isSome = (applyOptions c.opts).useRateLimit := by
  cases h <;> first | assumption | (simp_all; done)

theorem ticker_moves {c : Setup α} {s s' : State α}
    (h8 : s.mainPc = .entry → s.limiter = none)
    (h10 : ∀ t, s.limiter = some t → t.period = (applyOptions c.opts).rateLimit ∧
    0 < (applyOptions c.opts).rateLimit ∧ (t.stopped = true ↔ s.mainPc = .returned))
    (h : Moves c s s') : ∀ t, s'.limiter = some t → t.period = (applyOptions c.opts).rateLimit ∧
    0 < (applyOptions c.opts).rateLimit ∧ (t.stopped = true ↔ s'.mainPc = .returned) := by
  cases h <;> try assumption
  case tick t h hs hp =>
    intro t1 ht1
    have h11 := h10 t h
    simp at ht1
    subst ht1
    simpa using h11
  case token k w item t hw hpc ht hp =>
    intro t1 ht1
    have h11 := h10 t ht
    simp at ht1
    subst ht1
    simpa using h11
  case stopTicker t h ht =>
    intro t1 ht1
    have h11 := h10 t ht
    simp at ht1
    subst ht1
    simp [h11.1, h11.2.1]
  case noTicker h hu => intro t1 ht1; simp at ht1
  case newTicker h hu hr =>
    intro t1 ht1
    simp at ht1
    subst ht1
    simp
    omega
  all_goals (intro t1 ht1; have h11 := h10 t1 ht1; clear h10; simp_all)

theorem tally_set_same (g : Worker α → Nat) {ws : List (Worker α)} {k : Nat}
    {w : Worker α} (w' : Worker α) (h : ws[k]? = some w) (hg : g w' = g w) :
    tally g (ws.set k w') = tally g ws := by
  have := tally_set g ws k w w' h
  omega

theorem counter_moves {c : Setup α} {s s' : State α}
    (h1 : s.mainPc.spawned c.concurrentLimit s.workers.length)
    (h3 : s.wg = (tally live s.workers : Int) + s.mainPc.added)
    (h : Moves c s s') : s'.wg = (tally live s'.workers : Int) + s'.mainPc.added := by
  cases h <;> try assumption
  case newTicker h hu hr => rw [h] at h1; simp at h1; simp [h1, tally]
  case noTicker h hu => rw [h] at h1; simp at h1; simp [h1, tally]
  case add i h hi => rw [h] at h3; simp only [MainPc.added] at h3 ⊢; omega
  case loopEnd i h hi => rw [h] at h3; exact h3
  case spawn i h =>
    rw [h] at h3
    simp only [MainPc.added, tally_append, tally_single, live] at h3 ⊢
    push_cast
    omega
  case spawnCloser h => rw [h] at h3; exact h3
  case println h => rw [h] at h3; exact h3
  case stopTicker t h ht => rw [h] at h3; exact h3
  case ret h ht => rw [h] at h3; exact h3
  case recv k w item rest hw hpc hin =>
    show s.wg = (tally live (s.workers.set k _) : Int) + s.mainPc.added
    rw [tally_set_same live _ hw (by cases s.limiter <;> simp [live, hpc])]
    exact h3
  case rangeEnd k w hw hpc hin hc =>
    show s.wg = (tally live (s.workers.set k _) : Int) + s.mainPc.added
    rw [tally_set_same live _ hw (by simp only [live, hpc])]
    exact h3
  case token k w item t hw hpc ht hp =>
    show s.wg = (tally live (s.workers.set k _) : Int) + s.mainPc.added
    rw [tally_set_same live _ hw (by simp only [live, hpc])]
    exact h3
  case callError k w item err hw hpc hf =>
    show s.wg = (tally live (s.workers.set k _) : Int) + s.mainPc.added
    rw [tally_set_same live _ hw (by simp only [live, hpc])]
    exact h3
  case callOk k w item result hw hpc hf =>
    show s.wg = (tally live (s.workers.set k _) : Int) + s.mainPc.added
    rw [tally_set_same live _ hw (by simp only [live, hpc])]
    exact h3
  case write k w result hw hpc ho =>
    show s.wg = (tally live (s.workers.set k _) : Int) + s.mainPc.added
    rw [tally_set_same live _ hw (by simp only [live, hpc])]
    exact h3
  case done k w hw hpc hn =>
    show s.wg - 1 = (tally live (s.workers.set k _) : Int) + s.mainPc.added
    have hs := tally_set live s.workers k w { w with pc := .exited } hw
    simp only [live, hpc] at hs
    omega

theorem added_nonneg (pc : MainPc) : 0 ≤ pc.added := by
  cases pc <;> simp

theorem added_of_not_before (pc : MainPc) (h : pc.beforeCloser = false) : pc.added = 0 := by
  cases pc <;> simp_all

theorem one_le_counter {s : State α} {k : Nat} {w : Worker α}
    (h3 : s.wg = (tally live s.workers : Int) + s.mainPc.added)
    (hw : s.workers[k]? = some w) (hl : live w = 1) : 1 ≤ s.wg := by
  have h1 := tally_pos_of_mem live s.workers w (mem_of_getElem? hw)
  have h2 := added_nonneg s.mainPc
  omega

theorem waited_moves {c : Setup α} {s s' : State α}
    (h2 : s.closer = .notStarted ↔ s.mainPc.beforeCloser = true)
    (h3 : s.wg = (tally live s.workers : Int) + s.mainPc.added)
    (h4 : s.closer = .closing ∨ s.closer = .finished → s.wg = 0)
    (h : Moves c s s') : s'.closer = .closing ∨ s'.closer = .finished → s'.wg = 0 := by
  cases h <;> try assumption
  case newTicker h hu hr => intro _; rfl
  case noTicker h hu => intro _; rfl
  case add i h hi =>
    intro hc
    have : s.closer = .notStarted := h2.2 (by simp [h])
    simp [this] at hc
  case spawnCloser h => intro hc; simp at hc
  case waitDone h hw => intro _; exact hw
  case close h ho => intro _; exact h4 (Or.inl h)
  case done k w hw hpc hn =>
    intro hc
    have h0 := h4 hc
    have h1 := one_le_counter h3 hw (by simp [live, hpc])
    omega

theorem fault_moves {c : Setup α} {s s' : State α}
    (h3 : s.wg = (tally live s.workers : Int) + s.mainPc.added)
    (h4 : s.closer = .closing ∨ s.closer = .finished → s.wg = 0)
    (h5 : s.outputClosed = true ↔ s.closer = .finished)
    (hf : s.fault = none)
    (h : Moves c s s') : ∀ f, s'.fault = some f → f = .nonPositiveInterval ∧
      s'.mainPc = .entry ∧ (applyOptions c.opts).useRateLimit = true ∧
      (applyOptions c.opts).rateLimit ≤ 0 := by
  cases h
  case badTicker h hu hr =>
    intro f hf'
    simp at hf'
    exact ⟨hf'.symm, h, hu, hr⟩
  case closeTwice h ho =>
    have := h5.1 ho
    simp [h] at this
  case writeClosed k w result hw hpc ho =>
    have h0 := h4 (Or.inr (h5.1 ho))
    have h1 := one_le_counter h3 hw (by simp [live, hpc])
    omega
  case doneNegative k w hw hpc hn =>
    have h1 := one_le_counter h3 hw (by simp [live, hpc])
    omega
  all_goals (intro f hf'; simp [hf] at hf')

theorem control_moves {c : Setup α} {s s' : State α}
    (hI : Control c s) (hf : s.fault = none) (h : Moves c s s') : Control c s' :=
  { spawned := spawned_moves hI.spawned h
    started := started_moves hI.started h
    counter := counter_moves hI.spawned hI.counter h
    waited := waited_moves hI.started hI.counter hI.waited h
    closed := closed_moves hI.started hI.closed h
    closes := closes_moves hI.started hI.closes h
    fault := fault_moves hI.counter hI.waited hI.closed hf h
    entry := entry_moves hI.entry h
    limiterOn := limiterOn_moves hI.entry hI.limiterOn h
    ticker := ticker_moves hI.entry hI.ticker h }

theorem control_step {c : Setup α} {s s' : State α} {a : Action}
    (hI : Control c s) (h : step c s a = some s') : Control c s' :=
  control_moves hI (fault_none_of_step h) (moves_of_step h)

theorem control_execFrom {c : Setup α} {s : State α} (hI : Control c s)
    (sched : List Action) : Control c (execFrom c s sched) :=
  execFrom_induction c (Control c) s hI (fun _ _ _ hs h => control_step hs h) sched

theorem control_exec (c : Setup α) (sched : List Action) : Control c (exec c sched) :=
  control_execFrom (control_init c) sched

end ControlInvariant

section DataInvariant

variable {α : Type}

theorem data_init [DecidableEq α] (c : Setup α) : Data c (init c.items) := by
  constructor <;> simp [workermanager.init, tally, pendingTokens, successes]

theorem tokens_moves {c : Setup α} {s s' : State α}
    (h1 : s.tokensTaken + pendingTokens s.limiter = s.ticks)
    (hC : Control c s)
    (h : Moves c s s') : s'.tokensTaken + pendingTokens s'.limiter = s'.ticks := by
  cases h <;> try assumption
  case tick t h hs hp => simp [pendingTokens, h, hp] at h1 ⊢; omega
  case newTicker h hu hr => simp [pendingTokens, hC.entry h] at h1 ⊢; omega
  case noTicker h hu => simp [pendingTokens, hC.entry h] at h1 ⊢; omega
  case stopTicker t h ht => simp [pendingTokens, ht] at h1 ⊢; omega
  case token k w item t hw hpc ht hp => simp [pendingTokens, ht, hp] at h1 ⊢; omega

theorem not_entry_of_worker {c : Setup α} {s : State α} {k : Nat} {w : Worker α}
    (hC : Control c s) (hw : s.workers[k]? = some w) : s.mainPc ≠ .entry := by
  intro he
  have h1 := hC.spawned
  rw [he] at h1
  simp at h1
  simp [h1] at hw

theorem paid_moves {c : Setup α} {s s' : State α}
    (h2 : (applyOptions c.opts).useRateLimit = true →
      s.calls.length + tally inCall s.workers = s.tokensTaken)
    (hC : Control c s)
    (h : Moves c s s') : (applyOptions c.opts).useRateLimit = true →
      s'.calls.length + tally inCall s'.workers = s'.tokensTaken := by
  cases h <;> try assumption
  all_goals intro hu
  all_goals have h2 := h2 hu
  case spawn i h => simp [tally_append, tally_single, inCall]; exact h2
  case recv k w item rest hw hpc hin =>
    have hl := hC.limiterOn (not_entry_of_worker hC hw)
    rw [hu] at hl
    have hs := tally_set inCall s.workers k w
      { w with pc := if s.limiter.isSome then .waitToken item else .callTask item,
               recvd := w.recvd ++ [item] } hw
    simp [hl, inCall, hpc] at hs ⊢
    omega
  case rangeEnd k w hw hpc hin hc =>
    have hs := tally_set inCall s.workers k w { w with pc := .deferred } hw
    simp [inCall, hpc] at hs ⊢
    omega
  case token k w item t hw hpc ht hp =>
    have hs := tally_set inCall s.workers k w { w with pc := .callTask item } hw
    simp [inCall, hpc] at hs ⊢
    omega
  case callError k w item err hw hpc hf =>
    have hs := tally_set inCall s.workers k w
      { w with pc := .atRange, called := w.called ++ [item] } hw
    simp [inCall, hpc] at hs ⊢
    omega
  case callOk k w item result hw hpc hf =>
    have hs := tally_set inCall s.workers k w
      { w with pc := .sendResult result, called := w.called ++ [item] } hw
    simp [inCall, hpc] at hs ⊢
    omega
  case write k w result hw hpc ho =>
    have hs := tally_set inCall s.workers k w
      { w with pc := .atRange, wrote := w.wrote ++ [result] } hw
    simp [inCall, hpc] at hs ⊢
    omega
  case done k w hw hpc hn =>
    have hs := tally_set inCall s.workers k w { w with pc := .exited } hw
    simp [inCall, hpc] at hs ⊢
    omega

theorem forall_mem_set {P : Worker α → Prop} {ws : List (Worker α)} {k : Nat}
    {w' : Worker α} (h : ∀ w ∈ ws, P w) (h' : P w') : ∀ w ∈ ws.set k w', P w := by
  intro w hw
  rcases List.mem_or_eq_of_mem_set hw with hm | rfl
  · exact h w hm
  · exact h'

theorem unthrottled_moves {c : Setup α} {s s' : State α}
    (h3 : s.limiter = none → ∀ w ∈ s.workers, ∀ x, w.pc ≠ .waitToken x)
    (hC : Control c s)
    (h : Moves c s s') : s'.limiter = none → ∀ w ∈ s'.workers, ∀ x, w.pc ≠ .waitToken x := by
  cases h <;> try assumption
  case tick t h hs hp => intro hl; simp at hl
  case newTicker h hu hr => intro hl; simp at hl
  case noTicker h hu => intro _; exact h3 (hC.entry h)
  case stopTicker t h ht => intro hl; simp at hl
  case token k w item t hw hpc ht hp => intro hl; simp at hl
  case spawn i h =>
    intro hl w hw
    simp only [List.mem_append, List.mem_singleton] at hw
    rcases hw with hw | rfl
    · exact h3 hl w hw
    · simp
  case recv k w item rest hw hpc hin =>
    intro hl
    have hl' : s.limiter = none := hl
    exact forall_mem_set (h3 hl') (by simp [hl'])
  case rangeEnd k w hw hpc hin hc =>
    intro hl
    exact forall_mem_set (h3 hl) (by simp)
  case callError k w item err hw hpc hf =>
    intro hl
    exact forall_mem_set (h3 hl) (by simp)
  case callOk k w item result hw hpc hf =>
    intro hl
    exact forall_mem_set (h3 hl) (by simp)
  case write k w result hw hpc ho =>
    intro hl
    exact forall_mem_set (h3 hl) (by simp)
  case done k w hw hpc hn =>
    intro hl
    exact forall_mem_set (h3 hl) (by simp)

theorem stream_moves {c : Setup α} {s s' : State α}
    (h4 : s.received ++ s.input ++ s.toSend = c.items)
    (h : Moves c s s') : s'.received ++ s'.input ++ s'.toSend = c.items := by
  cases h <;> try assumption
  case send item rest h => rw [h] at h4; simpa using h4
  case recv k w item rest hw hpc hin => rw [hin] at h4; simpa using h4

theorem closedInput_moves {c : Setup α} {s s' : State α}
    (h5 : s.inputClosed = true → s.toSend = [] ∧ c.closesInput = true)
    (h : Moves c s s') : s'.inputClosed = true → s'.toSend = [] ∧ c.closesInput = true := by
  cases h <;> try assumption
  case send item rest h =>
    intro hc
    have := (h5 hc).1
    simp [h] at this
  case closeInput h hc hn => intro _; exact ⟨h, hc⟩

theorem drained_moves {c : Setup α} {s s' : State α}
    (h5 : s.inputClosed = true → s.toSend = [] ∧ c.closesInput = true)
    (h6 : ∀ w ∈ s.workers, w.pc = .deferred ∨ w.pc = .exited →
      s.input = [] ∧ s.inputClosed = true)
    (h : Moves c s s') : ∀ w ∈ s'.workers, w.pc = .deferred ∨ w.pc = .exited →
      s'.input = [] ∧ s'.inputClosed = true := by
  cases h <;> try assumption
  case send item rest h =>
    intro w hw hpc
    have h7 := h6 w hw hpc
    have := (h5 h7.2).1
    simp [h] at this
  case closeInput h hc hn =>
    intro w hw hpc
    exact ⟨(h6 w hw hpc).1, rfl⟩
  case spawn i h =>
    intro w hw
    simp only [List.mem_append, List.mem_singleton] at hw
    rcases hw with hw | rfl
    · exact h6 w hw
    · simp
  case recv k w item rest hw hpc hin =>
    apply forall_mem_set
    · intro w1 hw1 hpc1
      have := (h6 w1 hw1 hpc1).1
      simp [hin] at this
    · cases s.limiter <;> simp
  case rangeEnd k w hw hpc hin hc =>
    exact forall_mem_set h6 (fun _ => ⟨hin, hc⟩)
  case token k w item t hw hpc ht hp => exact forall_mem_set h6 (by simp)
  case callError k w item err hw hpc hf => exact forall_mem_set h6 (by simp)
  case callOk k w item result hw hpc hf => exact forall_mem_set h6 (by simp)
  case write k w result hw hpc ho => exact forall_mem_set h6 (by simp)
  case done k w hw hpc hn =>
    exact forall_mem_set h6 (fun _ => h6 w (mem_of_getElem? hw) (Or.inl hpc))

theorem items_moves [DecidableEq α] {c : Setup α} {s s' : State α}
    (h7 : ∀ a, s.calls.count a + tally (heldCount a) s.workers
      = s.received.count a)
    (h : Moves c s s') : ∀ a, s'.calls.count a
      + tally (heldCount a) s'.workers = s'.received.count a := by
  cases h <;> try assumption
  all_goals intro a
  all_goals have h7 := h7 a
  case spawn i h => simp [tally_append, tally_single, heldCount, held]; exact h7
  case recv k w item rest hw hpc hin =>
    have hs := tally_set (heldCount a) s.workers k w
      { w with pc := if s.limiter.isSome then .waitToken item else .callTask item,
               recvd := w.recvd ++ [item] } hw
    cases hl : s.limiter <;> simp [hl, heldCount, held, hpc, List.count_append] at hs ⊢ <;> omega
  case rangeEnd k w hw hpc hin hc =>
    have hs := tally_set (heldCount a) s.workers k w
      { w with pc := .deferred } hw
    simp [heldCount, held, hpc] at hs ⊢
    omega
  case token k w item t hw hpc ht hp =>
    have hs := tally_set (heldCount a) s.workers k w
      { w with pc := .callTask item } hw
    simp [heldCount, held, hpc] at hs ⊢
    omega
  case callError k w item err hw hpc hf =>
    have hs := tally_set (heldCount a) s.workers k w
      { w with pc := .atRange, called := w.called ++ [item] } hw
    simp [heldCount, held, hpc, List.count_append] at hs ⊢
    omega
  case callOk k w item result hw hpc hf =>
    have hs := tally_set (heldCount a) s.workers k w
      { w with pc := .sendResult result, called := w.called ++ [item] } hw
    simp [heldCount, held, hpc, List.count_append] at hs ⊢
    omega
  case write k w result hw hpc ho =>
    have hs := tally_set (heldCount a) s.workers k w
      { w with pc := .atRange, wrote := w.wrote ++ [result] } hw
    simp [heldCount, held, hpc] at hs ⊢
    omega
  case done k w hw hpc hn =>
    have hs := tally_set (heldCount a) s.workers k w
      { w with pc := .exited } hw
    simp [heldCount, held, hpc] at hs ⊢
    omega

theorem successes_append (f : TaskFunc α) (xs ys : List α) :
    successes f (xs ++ ys) = successes f xs ++ successes f ys := by
  simp [successes]

theorem successes_error (f : TaskFunc α) (x : α) (err : GoError)
    (h : f x = .error err) : successes f [x] = [] := by
  simp [successes, h, Except.toOption]

theorem successes_ok (f : TaskFunc α) (x r : α)
    (h : f x = .ok r) : successes f [x] = [r] := by
  simp [successes, h, Except.toOption]

theorem results_moves [DecidableEq α] {c : Setup α} {s s' : State α}
    (h8 : ∀ b, s.output.count b + tally (unsentCount b) s.workers
      = (successes c.taskFunc s.calls).count b)
    (h : Moves c s s') : ∀ b, s'.output.count b
      + tally (unsentCount b) s'.workers
      = (successes c.taskFunc s'.calls).count b := by
  cases h <;> try assumption
  all_goals intro b
  all_goals have h8 := h8 b
  case spawn i h => simp [tally_append, tally_single, unsentCount, unsent]; exact h8
  case recv k w item rest hw hpc hin =>
    have hs := tally_set (unsentCount b) s.workers k w
      { w with pc := if s.limiter.isSome then .waitToken item else .callTask item,
               recvd := w.recvd ++ [item] } hw
    cases hl : s.limiter <;> simp [hl, unsentCount, unsent, hpc] at hs ⊢ <;> omega
  case rangeEnd k w hw hpc hin hc =>
    have hs := tally_set (unsentCount b) s.workers k w
      { w with pc := .deferred } hw
    simp [unsentCount, unsent, hpc] at hs ⊢
    omega
  case token k w item t hw hpc ht hp =>
    have hs := tally_set (unsentCount b) s.workers k w
      { w with pc := .callTask item } hw
    simp [unsentCount, unsent, hpc] at hs ⊢
    omega
  case callError k w item err hw hpc hf =>
    have hs := tally_set (unsentCount b) s.workers k w
      { w with pc := .atRange, called := w.called ++ [item] } hw
    simp [unsentCount, unsent, hpc, successes_append, successes_error _ _ _ hf] at hs ⊢
    omega
  case callOk k w item result hw hpc hf =>
    have hs := tally_set (unsentCount b) s.workers k w
      { w with pc := .sendResult result, called := w.called ++ [item] } hw
    simp [unsentCount, unsent, hpc, successes_append, successes_ok _ _ _ hf, List.count_append] at hs ⊢
    omega
  case write k w result hw hpc ho =>
    have hs := tally_set (unsentCount b) s.workers k w
      { w with pc := .atRange, wrote := w.wrote ++ [result] } hw
    simp [unsentCount, unsent, hpc, List.count_append] at hs ⊢
    omega
  case done k w hw hpc hn =>
    have hs := tally_set (unsentCount b) s.workers k w
      { w with pc := .exited } hw
    simp [unsentCount, unsent, hpc] at hs ⊢
    omega

theorem workerOk_moves {c : Setup α} {s s' : State α}
    (h9 : ∀ w ∈ s.workers, WorkerOk c.taskFunc w)
    (h : Moves c s s') : ∀ w ∈ s'.workers, WorkerOk c.taskFunc w := by
  cases h <;> try assumption
  case spawn i h =>
    intro w hw
    simp only [List.mem_append, List.mem_singleton] at hw
    rcases hw with hw | rfl
    · exact h9 w hw
    · simp [WorkerOk, successes]
  case recv k w item rest hw hpc hin =>
    have h0 := h9 w (mem_of_getElem? hw)
    simp only [WorkerOk, hpc] at h0
    exact forall_mem_set h9 (by cases s.limiter <;> simp [WorkerOk, h0.1, h0.2])
  case rangeEnd k w hw hpc hin hc =>
    have h0 := h9 w (mem_of_getElem? hw)
    simp only [WorkerOk, hpc] at h0
    exact forall_mem_set h9 (by simp [WorkerOk, h0.1, h0.2])
  case token k w item t hw hpc ht hp =>
    have h0 := h9 w (mem_of_getElem? hw)
    simp only [WorkerOk, hpc] at h0
    exact forall_mem_set h9 (by simp [WorkerOk, h0.1, h0.2])
  case callError k w item err hw hpc hf =>
    have h0 := h9 w (mem_of_getElem? hw)
    simp only [WorkerOk, hpc] at h0
    exact forall_mem_set h9
      (by simp [WorkerOk, h0.1, h0.2, successes_append, successes_error _ _ _ hf])
  case callOk k w item result hw hpc hf =>
    have h0 := h9 w (mem_of_getElem? hw)
    simp only [WorkerOk, hpc] at h0
    exact forall_mem_set h9
      (by simp [WorkerOk, h0.1, h0.2, successes_append, successes_ok _ _ _ hf])
  case write k w result hw hpc ho =>
    have h0 := h9 w (mem_of_getElem? hw)
    simp only [WorkerOk, hpc] at h0
    exact forall_mem_set h9 (by simp [WorkerOk, h0.1, h0.2])
  case done k w hw hpc hn =>
    have h0 := h9 w (mem_of_getElem? hw)
    simp only [WorkerOk, hpc] at h0
    exact forall_mem_set h9 (by simp [WorkerOk, h0.1, h0.2])

theorem idle_moves {c : Setup α} {s s' : State α}
    (h10 : s.workers = [] → s.received = [] ∧ s.calls = [] ∧ s.output = [])
    (h : Moves c s s') :
    s'.workers = [] → s'.received = [] ∧ s'.calls = [] ∧ s'.output = [] := by
  cases h <;> try assumption
  case spawn i h => intro hw; simp at hw
  all_goals
    intro hw'
    rename_i k w _ _ _
    simp only [List.set_eq_nil_iff] at hw'
    simp [hw'] at *

theorem data_moves [DecidableEq α] {c : Setup α} {s s' : State α}
    (hI : Data c s) (hC : Control c s) (h : Moves c s s') : Data c s' :=
  { tokens := tokens_moves hI.tokens hC h
    paid := paid_moves hI.paid hC h
    unthrottled := unthrottled_moves hI.unthrottled hC h
    stream := stream_moves hI.stream h
    closedInput := closedInput_moves hI.closedInput h
    drained := drained_moves hI.closedInput hI.drained h
    items := items_moves hI.items h
    results := results_moves hI.results h
    sequential := workerOk_moves hI.sequential h
    idle := idle_moves hI.idle h }

/-- Both invariants together. -/
theorem invariants_execFrom [DecidableEq α] {c : Setup α} {s : State α}
    (hC : Control c s) (hD : Data c s) (sched : List Action) :
    Control c (execFrom c s sched) ∧ Data c (execFrom c s sched) :=
  execFrom_induction c (fun s => Control c s ∧ Data c s) s ⟨hC, hD⟩
    (fun _ _ _ hs h => ⟨control_step hs.1 h, data_moves hs.2 hs.1 (moves_of_step h)⟩) sched

theorem data_exec [DecidableEq α] (c : Setup α) (sched : List Action) :
    Data c (exec c sched) :=
  (invariants_execFrom (control_init c) (data_init c) sched).2

end DataInvariant

section Termination

variable {α : Type}

theorem fuel_moves {c : Setup α} {s s' : State α}
    (hC : Control c s) (hf : s.fault = none)
    (h : Moves c s s') : fuel c s' < fuel c s := by
  cases h
  case tick t h hs hp => simp [fuel, tickFuel, h, hs, hp]
  case send item rest h => simp [fuel, h]; omega
  case closeInput h hc hn => simp [fuel, hn]
  case badTicker h hu hr => simp [fuel, hf]
  case newTicker h hu hr => simp [fuel, h, MainPc.fuel, tickFuel, hC.entry h]; omega
  case noTicker h hu => simp [fuel, h, MainPc.fuel, tickFuel, hC.entry h]
  case add i h hi => simp [fuel, h, MainPc.fuel]
  case loopEnd i h hi => simp [fuel, h, MainPc.fuel]
  case spawn i h =>
    have h1 := hC.spawned
    rw [h] at h1
    simp only [MainPc.spawned] at h1
    simp [fuel, h, MainPc.fuel, tally_append, tally_single, workerFuel]
    omega
  case spawnCloser h =>
    have h2 : s.closer = .notStarted := hC.started.2 (by simp [h])
    simp [fuel, h, h2, MainPc.fuel, CloserPc.fuel]
  case println h => simp [fuel, h, MainPc.fuel]
  case stopTicker t h ht =>
    simp [fuel, h, MainPc.fuel, tickFuel, ht]
    split <;> omega
  case ret h ht => simp [fuel, h, MainPc.fuel]
  case waitDone h hw => simp [fuel, h, CloserPc.fuel]
  case closeTwice h ho => simp [fuel, hf]
  case close h ho => simp [fuel, h, CloserPc.fuel]
  case writeClosed k w result hw hpc ho => simp [fuel, hf]
  case doneNegative k w hw hpc hn => simp [fuel, hf]
  case recv k w item rest hw hpc hin =>
    have hs := tally_set workerFuel s.workers k w
      { w with pc := if s.limiter.isSome then .waitToken item else .callTask item,
               recvd := w.recvd ++ [item] } hw
    cases hl : s.limiter <;> simp [hl, workerFuel, hpc] at hs <;>
      simp [fuel, hin, hl] <;> omega
  case rangeEnd k w hw hpc hin hc =>
    have hs := tally_set workerFuel s.workers k w { w with pc := .deferred } hw
    simp [workerFuel, hpc] at hs
    simp [fuel]
    omega
  case token k w item t hw hpc ht hp =>
    have hs := tally_set workerFuel s.workers k w { w with pc := .callTask item } hw
    simp [workerFuel, hpc] at hs
    cases hst : t.stopped <;> simp [fuel, tickFuel, ht, hp, hst] <;> omega
  case callError k w item err hw hpc hf =>
    have hs := tally_set workerFuel s.workers k w
      { w with pc := .atRange, called := w.called ++ [item] } hw
    simp [workerFuel, hpc] at hs
    simp [fuel]
    omega
  case callOk k w item result hw hpc hf =>
    have hs := tally_set workerFuel s.workers k w
      { w with pc := .sendResult result, called := w.called ++ [item] } hw
    simp [workerFuel, hpc] at hs
    simp [fuel]
    omega
  case write k w result hw hpc ho =>
    have hs := tally_set workerFuel s.workers k w
      { w with pc := .atRange, wrote := w.wrote ++ [result] } hw
    simp [workerFuel, hpc] at hs
    simp [fuel]
    omega
  case done k w hw hpc hn =>
    have hs := tally_set workerFuel s.workers k w { w with pc := .exited } hw
    simp [workerFuel, hpc] at hs
    simp [fuel]
    omega

theorem terminal_main {c : Setup α} {s : State α}
    (ht : Terminal c s) (hf : s.fault = none) : s.mainPc = .returned := by
  have h := ht .main
  simp only [workermanager.step, hf, StartWorkers] at h
  cases hpc : s.mainPc <;> simp only [hpc] at h
  case returned => rfl
  all_goals first
    | (simp at h; done)
    | (split at h <;> first | (simp at h; done) | (split at h <;> simp at h))

theorem terminal_caller {c : Setup α} {s : State α}
    (ht : Terminal c s) (hf : s.fault = none) :
    s.toSend = [] ∧ (c.closesInput = true → s.inputClosed = true) := by
  have h := ht .caller
  simp only [workermanager.step, hf, caller] at h
  split at h
  · simp at h
  · next heq =>
    refine ⟨heq, fun hc => ?_⟩
    simp [hc] at h
    exact h

theorem terminal_closer {c : Setup α} {s : State α}
    (ht : Terminal c s) (hf : s.fault = none) :
    s.closer ≠ .closing ∧ (s.closer = .waiting → s.wg ≠ 0) := by
  have h := ht .closer
  simp only [workermanager.step, hf, closer] at h
  split at h
  · next heq => simp [heq]
  · next heq => simp [heq]; simpa using h
  · split at h <;> simp at h
  · next heq => simp [heq]

theorem terminal_worker {c : Setup α} {s : State α} {k : Nat} {w : Worker α}
    (ht : Terminal c s) (hf : s.fault = none) (hw : s.workers[k]? = some w) :
    w.pc = .exited ∨ (w.pc = .atRange ∧ s.input = [] ∧ s.inputClosed = false) ∨
      (∃ item, w.pc = .waitToken item ∧ pendingTokens s.limiter = 0) := by
  have h := ht (.worker k)
  simp only [workermanager.step, hf, worker, hw] at h
  split at h
  · next hpc =>
    split at h
    · simp at h
    · next hin =>
      refine Or.inr (Or.inl ⟨hpc, hin, ?_⟩)
      simpa using h
  · next item hpc =>
    refine Or.inr (Or.inr ⟨item, hpc, ?_⟩)
    split at h
    · next t hl =>
      simp at h
      simp [pendingTokens, hl, h]
    · next hl => simp [pendingTokens, hl]
  · split at h <;> simp at h
  · split at h <;> simp at h
  · split at h <;> simp at h
  · next hpc => exact Or.inl hpc

end Termination

section Runs

variable {α : Type}

theorem exec_snoc_of_step {c : Setup α} {sched : List Action} {a : Action}
    {s' : State α} (h : step c (exec c sched) a = some s') :
    exec c (sched ++ [a]) = s' := by
  rw [exec_append]
  simp [execFrom, next, h]

theorem fuel_step {c : Setup α} (sched : List Action) (a : Action) (s' : State α)
    (h : step c (exec c sched) a = some s') : fuel c s' < fuel c (exec c sched) :=
  fuel_moves (control_exec c sched) (fault_none_of_step h) (moves_of_step h)

/-- Every run can be extended to a complete one. -/
theorem completion (c : Setup α) (sched : List Action) :
    ∃ more, Terminal c (exec c (sched ++ more)) := by
  generalize hm : fuel c (exec c sched) = m
  induction m using Nat.strong_induction_on generalizing sched with
  | _ m ih =>
    by_cases ht : Terminal c (exec c sched)
    · exact ⟨[], by simpa using ht⟩
    · simp only [Terminal, not_forall] at ht
      obtain ⟨a, ha⟩ := ht
      obtain ⟨s', hs'⟩ := Option.ne_none_iff_exists'.1 ha
      have hlt := fuel_step sched a s' hs'
      have he := exec_snoc_of_step hs'
      obtain ⟨more, hmore⟩ := ih (fuel c s') (by omega) (sched ++ [a]) (by rw [he])
      exact ⟨a :: more, by simpa using hmore⟩

theorem terminal_of_terminalB {c : Setup α} {s : State α}
    (h : terminalB c s = true) : Terminal c s := by
  intro a
  simp only [terminalB, actions, List.all_eq_true, List.mem_append, List.mem_map,
    List.mem_range] at h
  cases a with
  | worker k =>
    by_cases hk : k < s.workers.length
    · simpa using h (.worker k) (Or.inr ⟨k, hk, rfl⟩)
    · cases hf : s.fault with
      | some f => simp [workermanager.step, hf]
      | none =>
        have : s.workers[k]? = none := by simp; omega
        simp [workermanager.step, hf, worker, this]
  | caller => simpa using h .caller (Or.inl (by simp))
  | tick => simpa using h .tick (Or.inl (by simp))
  | main => simpa using h .main (Or.inl (by simp))
  | closer => simpa using h .closer (Or.inl (by simp))

theorem limiter_none_of_off {c : Setup α} {s : State α} (hC : Control c s)
    (hu : (applyOptions c.opts).useRateLimit = false) : s.limiter = none := by
  by_cases he : s.mainPc = .entry
  · exact hC.entry he
  · have := hC.limiterOn he
    rw [hu] at this
    simpa using this

theorem exited_of_live_zero {ws : List (Worker α)} (h : tally live ws = 0) :
    ∀ w ∈ ws, w.pc = .exited := by
  intro w hw
  have := (tally_eq_zero live ws).1 h w hw
  unfold live at this
  split at this
  · assumption
  · simp at this

theorem live_zero_of_exited {ws : List (Worker α)} (h : ∀ w ∈ ws, w.pc = .exited) :
    tally live ws = 0 := by
  rw [tally_eq_zero]
  intro w hw
  simp [live, h w hw]

/-- Once the closing goroutine is past `wg.Wait()`, `StartWorkers` is past its loop and
every worker it spawned has exited. -/
theorem exited_of_waited {c : Setup α} {s : State α} (hC : Control c s)
    (h : s.closer = .closing ∨ s.closer = .finished) :
    s.mainPc.beforeCloser = false ∧ (∀ w ∈ s.workers, w.pc = .exited) ∧
      ((s.workers.length = 0 ∧ c.concurrentLimit ≤ 0) ∨
        (s.workers.length : Int) = c.concurrentLimit) := by
  have hb : s.mainPc.beforeCloser = false := by
    cases hx : s.mainPc.beforeCloser with
    | false => rfl
    | true =>
      have := hC.started.2 hx
      rcases h with h | h <;> simp [this] at h
  have hwg := hC.waited h
  have hcnt := hC.counter
  rw [added_of_not_before _ hb] at hcnt
  have hz : tally live s.workers = 0 := by omega
  refine ⟨hb, exited_of_live_zero hz, ?_⟩
  have hsp := hC.spawned
  cases hpc : s.mainPc <;> simp [hpc] at hb <;> simpa [hpc] using hsp

end Runs

section Completion

variable {α : Type}

theorem tally_zero_of_forall (g : Worker α → Nat) {ws : List (Worker α)}
    (h : ∀ w ∈ ws, g w = 0) : tally g ws = 0 :=
  (tally_eq_zero g ws).2 h

theorem fault_none_of_started {c : Setup α} {s : State α} (hC : Control c s)
    (h : s.mainPc ≠ .entry) : s.fault = none := by
  cases hf : s.fault with
  | none => rfl
  | some f => exact absurd (hC.fault f hf).2.1 h

theorem fault_none_of_off {c : Setup α} {s : State α} (hC : Control c s)
    (hu : (applyOptions c.opts).useRateLimit = false) : s.fault = none := by
  cases hf : s.fault with
  | none => rfl
  | some f =>
    have := (hC.fault f hf).2.2.1
    rw [hu] at this
    simp at this

/-- A complete run in which every worker has exited has closed the output. -/
theorem closed_of_terminal_exited {c : Setup α} {s : State α} (hC : Control c s)
    (ht : Terminal c s) (hf : s.fault = none)
    (he : ∀ w ∈ s.workers, w.pc = .exited) : s.outputClosed = true := by
  have hm := terminal_main ht hf
  have hcl := terminal_closer ht hf
  have hcnt := hC.counter
  rw [hm, live_zero_of_exited he] at hcnt
  simp at hcnt
  have hns : s.closer ≠ .notStarted := by
    intro h
    have := hC.started.1 h
    simp [hm] at this
  apply hC.closed.2
  cases hx : s.closer with
  | notStarted => exact absurd hx hns
  | waiting => exact absurd hcnt (hcl.2 hx)
  | closing => exact absurd hx hcl.1
  | finished => rfl

/-- Without a limiter and with the input closed by the caller, a complete run has
every worker exited. -/
theorem exited_of_terminal {c : Setup α} {s : State α} [DecidableEq α]
    (hC : Control c s) (hD : Data c s)
    (hu : (applyOptions c.opts).useRateLimit = false) (hc : c.closesInput = true)
    (ht : Terminal c s) : ∀ w ∈ s.workers, w.pc = .exited := by
  intro w hw
  have hf := fault_none_of_off hC hu
  obtain ⟨k, hk⟩ := List.getElem?_of_mem hw
  rcases terminal_worker ht hf hk with h | h | h
  · exact h
  · have := (terminal_caller ht hf).2 hc
    rw [h.2.2] at this
    simp at this
  · obtain ⟨item, hpc, _⟩ := h
    exact absurd hpc (hD.unthrottled (limiter_none_of_off hC hu) w hw item)

theorem heldCount_exited [DecidableEq α] (a : α) {w : Worker α}
    (h : w.pc = .exited) : heldCount a w = 0 := by
  simp [heldCount, held, h]

theorem unsentCount_exited [DecidableEq α] (b : α) {w : Worker α}
    (h : w.pc = .exited) : unsentCount b w = 0 := by
  simp [unsentCount, unsent, h]

theorem successes_perm (f : TaskFunc α) {xs ys : List α} (h : xs.Perm ys) :
    (successes f xs).Perm (successes f ys) :=
  h.filterMap _

/-- Once every worker has exited, the calls are the received items and the output is
their successful results, as multisets. -/
theorem accounted_of_exited {c : Setup α} {s : State α} [DecidableEq α]
    (hD : Data c s) (he : ∀ w ∈ s.workers, w.pc = .exited) :
    s.calls.Perm s.received ∧ s.output.Perm (successes c.taskFunc s.received) := by
  have h1 : s.calls.Perm s.received := by
    rw [List.perm_iff_count]
    intro a
    have := hD.items a
    rw [tally_zero_of_forall _ (fun w hw => heldCount_exited a (he w hw))] at this
    omega
  refine ⟨h1, ?_⟩
  refine List.Perm.trans ?_ (successes_perm c.taskFunc h1)
  rw [List.perm_iff_count]
  intro b
  have := hD.results b
  rw [tally_zero_of_forall _ (fun w hw => unsentCount_exited b (he w hw))] at this
  omega

/-- A worker that has left its loop has seen the whole input. -/
theorem received_all_of_exited {c : Setup α} {s : State α} [DecidableEq α]
    (hD : Data c s) {w : Worker α} (hw : w ∈ s.workers)
    (he : w.pc = .deferred ∨ w.pc = .exited) : s.received = c.items := by
  have h1 := hD.drained w hw he
  have h2 := (hD.closedInput h1.2).1
  have h3 := hD.stream
  rw [h1.1, h2] at h3
  simpa using h3

end Completion

section Claims

variable {α : Type}

/-- C1. With at least one worker, no rate-limit option and an input that the caller
closes after sending `items`: every run can be completed and every step consumes fuel,
so every run completes; a complete run has closed the output; and whenever the output
is closed, the values written are exactly the successful results of `taskFunc` on
`items` as a multiset, `taskFunc` was invoked exactly once per item, every item was
received, and all `concurrentLimit` workers had exited. -/
theorem startWorkers_delivers_successes (c : Setup α)
    (hn : 1 ≤ c.concurrentLimit) (ho : c.opts = []) (hc : c.closesInput = true) :
    (∀ sched, ∃ more, Terminal c (exec c (sched ++ more))) ∧
    (∀ sched a s', step c (exec c sched) a = some s' →
      fuel c s' < fuel c (exec c sched)) ∧
    (∀ sched, Terminal c (exec c sched) → (exec c sched).outputClosed = true) ∧
    (∀ sched, (exec c sched).outputClosed = true →
      (exec c sched).output.Perm (successes c.taskFunc c.items) ∧
      (exec c sched).calls.Perm c.items ∧
      (exec c sched).received = c.items ∧
      ((exec c sched).workers.length : Int) = c.concurrentLimit ∧
      (∀ w ∈ (exec c sched).workers, w.pc = .exited) ∧
      (exec c sched).closes = 1 ∧ (exec c sched).fault = none) := by
  classical
  have hu : (applyOptions c.opts).useRateLimit = false := by rw [ho]; rfl
  refine ⟨completion c, fuel_step, ?_, ?_⟩
  · intro sched ht
    have hC := control_exec c sched
    have hD := data_exec c sched
    exact closed_of_terminal_exited hC ht (fault_none_of_off hC hu)
      (exited_of_terminal hC hD hu hc ht)
  · intro sched hcl
    have hC := control_exec c sched
    have hD := data_exec c sched
    have hfin := hC.closed.1 hcl
    obtain ⟨hb, he, hlen⟩ := exited_of_waited hC (Or.inr hfin)
    have hlen' : ((exec c sched).workers.length : Int) = c.concurrentLimit := by omega
    obtain ⟨w, hw⟩ : ∃ w, w ∈ (exec c sched).workers := by
      apply List.exists_mem_of_length_pos
      omega
    have hrec := received_all_of_exited hD hw (Or.inr (he w hw))
    have hacc := accounted_of_exited hD he
    rw [hrec] at hacc
    refine ⟨hacc.2, hacc.1, hrec, hlen', he, ?_, fault_none_of_off hC hu⟩
    have := hC.closes
    rw [hfin] at this
    simpa using this

/-- C1 at the scenario of the specification: three workers doubling 1..5. -/
theorem startWorkers_delivers_successes_witness :
    Terminal doubling (exec doubling (roundRobin 14)) ∧
    (exec doubling (roundRobin 14)).outputClosed = true ∧
    (exec doubling (roundRobin 14)).output = [2, 4, 6, 8, 10] ∧
    (exec doubling (roundRobin 14)).output.Perm (successes double [1, 2, 3, 4, 5]) :=
  ⟨terminal_of_terminalB (by decide),
   (startWorkers_delivers_successes doubling (by decide) rfl rfl).2.2.1 _
     (terminal_of_terminalB (by decide)),
   by decide,
   ((startWorkers_delivers_successes doubling (by decide) rfl rfl).2.2.2 _
     (by decide)).1⟩

theorem calls_mem_items [DecidableEq α] {c : Setup α} {s : State α} (hD : Data c s)
    {a : α} (h : a ∈ s.calls) : a ∈ c.items := by
  have h1 := hD.items a
  have h2 : 0 < s.calls.count a := List.count_pos_iff.2 h
  have h3 : a ∈ s.received := List.count_pos_iff.1 (by omega)
  rw [← hD.stream]
  simp [h3]

theorem successes_eq_nil (f : TaskFunc α) {xs : List α}
    (h : ∀ x ∈ xs, ∃ err, f x = .error err) : successes f xs = [] := by
  simp only [successes, List.filterMap_eq_nil_iff]
  intro x hx
  obtain ⟨err, he⟩ := h x hx
  simp [he, Except.toOption]

theorem output_nil_of_all_fail [DecidableEq α] {c : Setup α} {s : State α}
    (hD : Data c s) (h : ∀ x ∈ c.items, ∃ err, c.taskFunc x = .error err) :
    s.output = [] := by
  rw [List.eq_nil_iff_forall_not_mem]
  intro b hb
  have h1 := hD.results b
  rw [successes_eq_nil c.taskFunc (fun x hx => h x (calls_mem_items hD hx))] at h1
  have h2 : 0 < s.output.count b := List.count_pos_iff.2 hb
  simp at h1
  omega

theorem workerOk_facts {f : TaskFunc α} {w : Worker α} (h : WorkerOk f w) :
    w.called <+: w.recvd ∧ w.wrote <+: successes f w.called ∧
    (w.pc = .atRange ∨ w.pc = .deferred ∨ w.pc = .exited →
      w.called = w.recvd ∧ w.wrote = successes f w.recvd) := by
  unfold WorkerOk at h
  split at h
  · next hpc =>
    refine ⟨?_, ?_, ?_⟩
    · rw [h.1]; exact List.prefix_append _ _
    · rw [h.2]
    · simp [hpc]
  · next hpc =>
    refine ⟨?_, ?_, ?_⟩
    · rw [h.1]; exact List.prefix_append _ _
    · rw [h.2]
    · simp [hpc]
  · next hpc =>
    refine ⟨?_, ?_, ?_⟩
    · rw [h.1]
    · rw [← h.2]; exact List.prefix_append _ _
    · simp [hpc]
  · refine ⟨?_, ?_, ?_⟩
    · rw [h.1]
    · rw [h.2]
    · intro _
      exact ⟨h.1.symm, by rw [h.2, h.1]⟩

/-- C2. In every state of every run, for every worker: the items it passed to
`taskFunc` are the items it received, in order, each once, all but possibly the one in
hand; the values it wrote are the successful results on those items, in order, all but
possibly the one in hand; at the head of its loop and after it nothing is in hand, so a
failed item neither writes nor ends the loop; and it leaves the loop only when the input
is closed and empty.  If `taskFunc` fails on every item, nothing is ever written, and a
complete run of a pool without rate limit whose input gets closed has closed the
output. -/
theorem worker_writes_successes_in_order (c : Setup α) (sched : List Action) :
    (∀ w ∈ (exec c sched).workers,
      w.called <+: w.recvd ∧ w.wrote <+: successes c.taskFunc w.called ∧
      (w.pc = .atRange ∨ w.pc = .deferred ∨ w.pc = .exited →
        w.called = w.recvd ∧ w.wrote = successes c.taskFunc w.recvd) ∧
      (w.pc = .deferred ∨ w.pc = .exited →
        (exec c sched).input = [] ∧ (exec c sched).inputClosed = true)) ∧
    ((∀ x ∈ c.items, ∃ err, c.taskFunc x = .error err) →
      (exec c sched).output = [] ∧
      (c.opts = [] → c.closesInput = true → Terminal c (exec c sched) →
        (exec c sched).outputClosed = true)) := by
  classical
  have hC := control_exec c sched
  have hD := data_exec c sched
  refine ⟨fun w hw => ?_, fun hfail => ⟨output_nil_of_all_fail hD hfail, ?_⟩⟩
  · obtain ⟨h1, h2, h3⟩ := workerOk_facts (hD.sequential w hw)
    exact ⟨h1, h2, h3, hD.drained w hw⟩
  · intro ho hc ht
    have hu : (applyOptions c.opts).useRateLimit = false := by rw [ho]; rfl
    exact closed_of_terminal_exited hC ht (fault_none_of_off hC hu)
      (exited_of_terminal hC hD hu hc ht)

/-- C2 at the scenarios of the specification: two workers with a task that fails on even
inputs and input 1..4, and two workers with a task that always fails. -/
theorem worker_writes_successes_in_order_witness :
    (exec filtering (roundRobin 12)).workers.map (fun w => (w.recvd, w.wrote))
      = [([1, 3], [1, 3]), ([2, 4], [])] ∧
    (exec filtering (roundRobin 12)).output = [1, 3] ∧
    (exec filtering (roundRobin 12)).log.map Prod.fst = [2, 4] ∧
    (∀ w ∈ (exec filtering (roundRobin 12)).workers,
      w.wrote <+: successes oddsOnly w.called) ∧
    (exec failing (roundRobin 12)).calls = [1, 2, 3] ∧
    (exec failing (roundRobin 12)).output = [] ∧
    (exec failing (roundRobin 12)).outputClosed = true :=
  ⟨by decide, by decide, by decide,
   fun w hw => ((worker_writes_successes_in_order filtering (roundRobin 12)).1 w hw).2.1,
   by decide,
   ((worker_writes_successes_in_order failing (roundRobin 12)).2
     (fun _ _ => ⟨"failed", rfl⟩)).1,
   ((worker_writes_successes_in_order failing (roundRobin 12)).2
     (fun _ _ => ⟨"failed", rfl⟩)).2 rfl rfl (terminal_of_terminalB (by decide))⟩

theorem workers_nil_of_nonpositive {c : Setup α} {s : State α} (hC : Control c s)
    (hn : c.concurrentLimit ≤ 0) : s.workers = [] ∧ s.mainPc.added = 0 := by
  have h := hC.spawned
  have hlen : s.workers.length = 0 ∧ s.mainPc.added = 0 := by
    cases hpc : s.mainPc <;> rw [hpc] at h <;>
      simp only [MainPc.spawned, MainPc.added] at h ⊢ <;>
      exact ⟨by omega, by first | trivial | omega⟩
  exact ⟨List.length_eq_zero.1 hlen.1, hlen.2⟩

/-- C3 as stated fails: with `concurrentLimit = 0` and the option `WithRateLimit 0`,
`time.NewTicker` panics in `StartWorkers` before the closing goroutine is started, so
the run is complete with no worker, nothing received, and the output never closed. -/
theorem no_workers_output_closed_counterexample :
    zeroPeriod.concurrentLimit ≤ 0 ∧
    Terminal zeroPeriod (exec zeroPeriod (roundRobin 3)) ∧
    (exec zeroPeriod (roundRobin 3)).fault = some .nonPositiveInterval ∧
    (exec zeroPeriod (roundRobin 3)).closer = .notStarted ∧
    (exec zeroPeriod (roundRobin 3)).workers = [] ∧
    (exec zeroPeriod (roundRobin 3)).outputClosed = false ∧
    (exec zeroPeriod (roundRobin 3)).closes = 0 :=
  ⟨by decide, terminal_of_terminalB (by decide), by decide, by decide, by decide,
   by decide, by decide⟩

/-- C3, amended. When `concurrentLimit ≤ 0`, in every state of every run no worker
exists, the completion counter is zero, nothing has been received from the input
(everything the caller sent is still in the channel), `taskFunc` has not been invoked,
nothing has been written, and the closing goroutine can pass `wg.Wait()` as soon as it
is started; every run completes.  If the options give no rate limit or a positive
period, no panic occurs and a complete run has closed the output, once; if they give a
rate limit with a non-positive period, the output is never closed. -/
theorem no_workers_of_nonpositive_limit (c : Setup α) (hn : c.concurrentLimit ≤ 0) :
    (∀ sched,
      (exec c sched).workers = [] ∧ (exec c sched).wg = 0 ∧
      (exec c sched).received = [] ∧
      (exec c sched).input ++ (exec c sched).toSend = c.items ∧
      (exec c sched).calls = [] ∧ (exec c sched).output = [] ∧
      ((exec c sched).closer = .waiting →
        ∃ s', step c (exec c sched) .closer = some s' ∧ s'.closer = .closing) ∧
      (((applyOptions c.opts).useRateLimit = true → 0 < (applyOptions c.opts).rateLimit) →
        (exec c sched).fault = none ∧
        (Terminal c (exec c sched) →
          (exec c sched).outputClosed = true ∧ (exec c sched).closes = 1)) ∧
      ((applyOptions c.opts).useRateLimit = true → (applyOptions c.opts).rateLimit ≤ 0 →
        (exec c sched).outputClosed = false ∧ (exec c sched).closes = 0)) ∧
    (∀ sched, ∃ more, Terminal c (exec c (sched ++ more))) ∧
    (∀ sched a s', step c (exec c sched) a = some s' →
      fuel c s' < fuel c (exec c sched)) := by
  classical
  refine ⟨fun sched => ?_, completion c, fuel_step⟩
  have hC := control_exec c sched
  have hD := data_exec c sched
  obtain ⟨hw, hadd⟩ := workers_nil_of_nonpositive hC hn
  have hwg : (exec c sched).wg = 0 := by
    have := hC.counter
    rw [hw, hadd] at this
    simpa [tally] using this
  obtain ⟨h1, h2, h3⟩ := hD.idle hw
  have hst := hD.stream
  rw [h1] at hst
  refine ⟨hw, hwg, h1, by simpa using hst, h2, h3, ?_, ?_, ?_⟩
  · intro hcl
    have hne : (exec c sched).mainPc ≠ .entry := by
      intro he
      have := hC.started.2 (by simp [he])
      simp [hcl] at this
    have hf := fault_none_of_started hC hne
    simp [workermanager.step, hf, closer, hcl, hwg]
  · intro hp
    have hf : (exec c sched).fault = none := by
      cases hx : (exec c sched).fault with
      | none => rfl
      | some f =>
        obtain ⟨_, _, hu, hr⟩ := hC.fault f hx
        have := hp hu
        omega
    refine ⟨hf, fun ht => ?_⟩
    have hcl := closed_of_terminal_exited hC ht hf (by simp [hw])
    refine ⟨hcl, ?_⟩
    have := hC.closes
    rw [hC.closed.1 hcl] at this
    simpa using this
  · intro hu hr
    have hlim : (exec c sched).limiter = none := by
      cases hx : (exec c sched).limiter with
      | none => rfl
      | some t =>
        have := (hC.ticker t hx).2.1
        omega
    have hentry : (exec c sched).mainPc = .entry := by
      by_contra hne
      have := hC.limiterOn hne
      rw [hlim, hu] at this
      simp at this
    have hns : (exec c sched).closer = .notStarted := hC.started.2 (by simp [hentry])
    have hcl : (exec c sched).outputClosed = false := by
      cases hx : (exec c sched).outputClosed with
      | false => rfl
      | true =>
        have := hC.closed.1 hx
        rw [hns] at this
        cases this
    refine ⟨hcl, ?_⟩
    have := hC.closes
    rw [hns] at this
    simpa using this

/-- C3, amended, at `concurrentLimit = 0` with input 1, 2, at `concurrentLimit = -2`
with input 7, and at `concurrentLimit = 0` behind a rate limiter of period 1000: the
output is closed and the input is left undrained. -/
theorem no_workers_of_nonpositive_limit_witness :
    (exec negativeLimit (roundRobin 6)).input = [7] ∧
    (exec negativeLimit (roundRobin 6)).outputClosed = true ∧
    (exec idleThrottled (roundRobin 6)).outputClosed = true ∧
    (exec noWorkers (roundRobin 6)).workers = [] ∧
    (exec noWorkers (roundRobin 6)).input = [1, 2] ∧
    (exec noWorkers (roundRobin 6)).calls = [] ∧
    (exec noWorkers (roundRobin 6)).outputClosed = true ∧
    (exec noWorkers (roundRobin 6)).closes = 1 :=
  ⟨by decide,
   ((((no_workers_of_nonpositive_limit negativeLimit (by decide)).1
     (roundRobin 6)).2.2.2.2.2.2.2.1 (by decide)).2
     (terminal_of_terminalB (by decide))).1,
   ((((no_workers_of_nonpositive_limit idleThrottled (by decide)).1
     (roundRobin 6)).2.2.2.2.2.2.2.1 (by decide)).2
     (terminal_of_terminalB (by decide))).1,
   ((no_workers_of_nonpositive_limit noWorkers (by decide)).1 (roundRobin 6)).1,
   by decide,
   ((no_workers_of_nonpositive_limit noWorkers (by decide)).1 (roundRobin 6)).2.2.2.2.1,
   ((((no_workers_of_nonpositive_limit noWorkers (by decide)).1
     (roundRobin 6)).2.2.2.2.2.2.2.1 (by decide)).2
     (terminal_of_terminalB (by decide))).1,
   by decide⟩

/-- C4. In every state of every run, if the closing goroutine is past `wg.Wait()` or the
output is closed, then `StartWorkers` has finished spawning, exactly
`max concurrentLimit 0` workers exist and each has completed its `wg.Done()`; a worker
that is about to write finds the output open; and the send-on-closed-channel panic never
occurs. -/
theorem output_closed_only_after_workers_exit (c : Setup α) (sched : List Action) :
    ((exec c sched).closer = .closing ∨ (exec c sched).outputClosed = true →
      (exec c sched).mainPc.beforeCloser = false ∧
      ((exec c sched).workers.length : Int) = max c.concurrentLimit 0 ∧
      (∀ w ∈ (exec c sched).workers, w.pc = .exited) ∧ (exec c sched).wg = 0) ∧
    (∀ w ∈ (exec c sched).workers, ∀ result, w.pc = .sendResult result →
      (exec c sched).outputClosed = false) ∧
    (exec c sched).fault ≠ some .sendOnClosedChannel := by
  have hC := control_exec c sched
  have key : (exec c sched).closer = .closing ∨ (exec c sched).outputClosed = true →
      (exec c sched).closer = .closing ∨ (exec c sched).closer = .finished := by
    rintro (h | h)
    · exact Or.inl h
    · exact Or.inr (hC.closed.1 h)
  refine ⟨fun h => ?_, fun w hw result hpc => ?_, fun hf => ?_⟩
  · obtain ⟨hb, he, hlen⟩ := exited_of_waited hC (key h)
    exact ⟨hb, by omega, he, hC.waited (key h)⟩
  · cases hcl : (exec c sched).outputClosed with
    | false => rfl
    | true =>
      have := (exited_of_waited hC (key (Or.inr hcl))).2.1 w hw
      rw [hpc] at this
      cases this
  · have := (hC.fault _ hf).1
    cases this

/-- C4 at three workers doubling 1..5: once the output is closed all three workers
have exited, and while the first worker is about to write the output is open. -/
theorem output_closed_only_after_workers_exit_witness :
    (exec doubling (roundRobin 14)).outputClosed = true ∧
    (exec doubling (roundRobin 14)).workers.map (fun w => w.pc)
      = [.exited, .exited, .exited] ∧
    (exec doubling (roundRobin 14)).wg = 0 ∧
    (exec doubling (roundRobin 4)).workers.map (fun w => w.pc) = [.sendResult 2] ∧
    (exec doubling (roundRobin 4)).outputClosed = false :=
  ⟨by decide, by decide,
   ((output_closed_only_after_workers_exit doubling (roundRobin 14)).1
     (Or.inr (by decide))).2.2.2,
   by decide,
   (output_closed_only_after_workers_exit doubling (roundRobin 4)).2.1
     { id := 1, pc := .sendResult 2, recvd := [1], called := [1], wrote := [] }
     (by decide) 2 rfl⟩

/-- C5 as stated fails: two workers behind a rate limiter, input 1, 2, 3 then closed,
`StartWorkers` returning (and so stopping the ticker) before the first tick.  The run is
complete, did not panic, and `close(output)` has not been executed: both workers are
blocked on the limiter. -/
theorem output_closed_exactly_once_counterexample :
    throttled.closesInput = true ∧
    Terminal throttled (exec throttled promptReturn) ∧
    (exec throttled promptReturn).inputClosed = true ∧
    (exec throttled promptReturn).fault = none ∧
    (exec throttled promptReturn).workers.map (fun w => w.pc)
      = [.waitToken 1, .waitToken 2] ∧
    (exec throttled promptReturn).outputClosed = false ∧
    (exec throttled promptReturn).closes = 0 :=
  ⟨rfl, terminal_of_terminalB (by decide), by decide, by decide, by decide, by decide,
   by decide⟩

/-- C5, amended. When the caller closes the input: in every state of every run
`close(output)` has been executed at most once, the close-of-closed-channel panic has
not occurred, the output is closed exactly when the close has been executed, and it has
been executed only with every spawned worker exited; every run completes; without
options a complete run has executed the close exactly once; with options a complete run
has executed it exactly once unless `time.NewTicker` panicked or some worker is blocked
on the limiter. -/
theorem output_closed_exactly_once (c : Setup α) (hc : c.closesInput = true) :
    (∀ sched,
      (exec c sched).closes ≤ 1 ∧
      (exec c sched).fault ≠ some .closeOfClosedChannel ∧
      ((exec c sched).closes = 1 ↔ (exec c sched).outputClosed = true) ∧
      ((exec c sched).closes = 1 →
        ((exec c sched).workers.length : Int) = max c.concurrentLimit 0 ∧
        ∀ w ∈ (exec c sched).workers, w.pc = .exited)) ∧
    (∀ sched, ∃ more, Terminal c (exec c (sched ++ more))) ∧
    (∀ sched a s', step c (exec c sched) a = some s' →
      fuel c s' < fuel c (exec c sched)) ∧
    (∀ sched, Terminal c (exec c sched) →
      (exec c sched).closes = 1 ∨
      (exec c sched).fault = some .nonPositiveInterval ∨
      ∃ w ∈ (exec c sched).workers, ∃ item, w.pc = .waitToken item) ∧
    (c.opts = [] → ∀ sched, Terminal c (exec c sched) → (exec c sched).closes = 1) := by
  classical
  have hone : ∀ sched, (exec c sched).outputClosed = true → (exec c sched).closes = 1 := by
    intro sched hcl
    have hC := control_exec c sched
    have := hC.closes
    rw [hC.closed.1 hcl] at this
    simpa using this
  refine ⟨fun sched => ?_, completion c, fuel_step, fun sched ht => ?_,
    fun ho sched ht => ?_⟩
  · have hC := control_exec c sched
    have hcl := hC.closes
    have hiff : (exec c sched).closes = 1 ↔ (exec c sched).outputClosed = true := by
      rw [hC.closed, hcl]
      split <;> simp_all
    refine ⟨by rw [hcl]; split <;> omega, fun hf => ?_, hiff, fun h1 => ?_⟩
    · have := (hC.fault _ hf).1
      cases this
    · obtain ⟨_, he, hlen⟩ := exited_of_waited hC (Or.inr (hC.closed.1 (hiff.1 h1)))
      exact ⟨by omega, he⟩
  · have hC := control_exec c sched
    cases hf : (exec c sched).fault with
    | some f =>
      have := (hC.fault f hf).1
      exact Or.inr (Or.inl (by rw [this]))
    | none =>
      by_cases hex : ∃ w ∈ (exec c sched).workers, ∃ item, w.pc = .waitToken item
      · exact Or.inr (Or.inr hex)
      · refine Or.inl (hone sched (closed_of_terminal_exited hC ht hf ?_))
        intro w hw
        obtain ⟨k, hk⟩ := List.getElem?_of_mem hw
        rcases terminal_worker ht hf hk with h | h | h
        · exact h
        · have := (terminal_caller ht hf).2 hc
          rw [h.2.2] at this
          simp at this
        · obtain ⟨item, hpc, _⟩ := h
          exact absurd ⟨w, hw, item, hpc⟩ hex
  · have hC := control_exec c sched
    have hD := data_exec c sched
    have hu : (applyOptions c.opts).useRateLimit = false := by rw [ho]; rfl
    exact hone sched (closed_of_terminal_exited hC ht (fault_none_of_off hC hu)
      (exited_of_terminal hC hD hu hc ht))

/-- C5 at three workers doubling 1..5: the close has run once when the run is complete,
and not yet halfway through. -/
theorem output_closed_exactly_once_witness :
    (exec doubling (roundRobin 7)).closes = 0 ∧
    (exec doubling (roundRobin 14)).closes = 1 ∧
    (exec doubling (roundRobin 20)).closes ≤ 1 :=
  ⟨by decide,
   (output_closed_exactly_once doubling rfl).2.2.2.2 rfl _
     (terminal_of_terminalB (by decide)),
   ((output_closed_exactly_once doubling rfl).1 _).1⟩

theorem applyOptions_append (os : List workermanager.Option) (p : Int) :
    applyOptions (os ++ [WithRateLimit p]) = { useRateLimit := true, rateLimit := p } := by
  simp [applyOptions, List.foldl_append, WithRateLimit]

/-- C6. Applying no option leaves the default `{useRateLimit = false, rateLimit = 0}`,
and then in every state of every run the limiter is nil and no worker waits for a
token; applying a list of options that ends with `WithRateLimit p` gives
`{useRateLimit = true, rateLimit = p}` whatever the earlier options were, and then any
ticker the run creates has period `p`. -/
theorem options_last_write_wins (α : Type) :
    applyOptions [] = { useRateLimit := false, rateLimit := 0 } ∧
    (∀ (os : List workermanager.Option) (p : Int),
      applyOptions (os ++ [WithRateLimit p]) = { useRateLimit := true, rateLimit := p }) ∧
    (∀ (ps : List Int) (p : Int),
      applyOptions ((ps ++ [p]).map WithRateLimit)
        = { useRateLimit := true, rateLimit := p }) ∧
    (∀ (c : Setup α), c.opts = [] → ∀ sched,
      (exec c sched).limiter = none ∧
      ∀ w ∈ (exec c sched).workers, ∀ item, w.pc ≠ .waitToken item) ∧
    (∀ (c : Setup α) (os : List workermanager.Option) (p : Int),
      c.opts = os ++ [WithRateLimit p] → ∀ sched t,
      (exec c sched).limiter = some t → t.period = p) := by
  classical
  refine ⟨rfl, applyOptions_append, fun ps p => ?_, fun c ho sched => ?_,
    fun c os p ho sched t ht => ?_⟩
  · rw [List.map_append]
    exact applyOptions_append _ p
  · have hC := control_exec c sched
    have hD := data_exec c sched
    have hu : (applyOptions c.opts).useRateLimit = false := by rw [ho]; rfl
    have hl := limiter_none_of_off hC hu
    exact ⟨hl, hD.unthrottled hl⟩
  · have hC := control_exec c sched
    have := (hC.ticker t ht).1
    rw [ho, applyOptions_append] at this
    exact this

/-- C6 on concrete option lists. -/
theorem options_last_write_wins_witness :
    applyOptions [] = { useRateLimit := false, rateLimit := 0 } ∧
    applyOptions [WithRateLimit 5, WithRateLimit 7, WithRateLimit 3]
      = { useRateLimit := true, rateLimit := 3 } ∧
    (exec throttled tickingSchedule).limiter
      = some { period := 1000, pending := false, stopped := false } :=
  ⟨(options_last_write_wins Int).1,
   (options_last_write_wins Int).2.2.1 [5, 7] 3,
   by decide⟩

/-- C7. With rate limiting enabled, in every state of every run: the invocations of
`taskFunc` made so far plus the workers that hold an unspent token equal the tokens
taken from the limiter, the tokens taken plus the token pending in the channel equal the
ticks delivered, and so the invocations made by all workers together never exceed the
ticks delivered. -/
theorem invocations_bounded_by_tokens (c : Setup α)
    (hu : (applyOptions c.opts).useRateLimit = true) (sched : List Action) :
    (exec c sched).calls.length + tally inCall (exec c sched).workers
      = (exec c sched).tokensTaken ∧
    (exec c sched).tokensTaken + pendingTokens (exec c sched).limiter
      = (exec c sched).ticks ∧
    pendingTokens (exec c sched).limiter ≤ 1 ∧
    (exec c sched).calls.length ≤ (exec c sched).ticks := by
  classical
  have hD := data_exec c sched
  have h1 := hD.paid hu
  have h2 := hD.tokens
  refine ⟨h1, h2, ?_, by omega⟩
  unfold pendingTokens
  split
  · split <;> omega
  · omega

/-- C7 on a run with two workers in which the timer ticked twice. -/
theorem invocations_bounded_by_tokens_witness :
    (exec throttled tickingSchedule).calls = [1, 2] ∧
    (exec throttled tickingSchedule).ticks = 2 ∧
    (exec throttled tickingSchedule).calls.length
      ≤ (exec throttled tickingSchedule).ticks :=
  ⟨by decide, by decide,
   (invocations_bounded_by_tokens throttled rfl tickingSchedule).2.2.2⟩

theorem step_queueLimit (c : Setup α) (q1 q2 : Int) (s : State α) (a : Action) :
    step { c with queueLimit := q1 } s a = step { c with queueLimit := q2 } s a := by
  cases a <;> rfl

/-- C8. Two calls of `StartWorkers` that differ only in `queueLimit` take the same
steps from every state, hence under every schedule reach the same state (same workers,
same output, same close behaviour), and are complete at the same moments. -/
theorem queueLimit_is_unused (c : Setup α) (q1 q2 : Int) :
    (∀ s a, step { c with queueLimit := q1 } s a
      = step { c with queueLimit := q2 } s a) ∧
    (∀ sched, exec { c with queueLimit := q1 } sched
      = exec { c with queueLimit := q2 } sched) ∧
    (∀ sched, Terminal { c with queueLimit := q1 } (exec { c with queueLimit := q1 } sched)
      ↔ Terminal { c with queueLimit := q2 } (exec { c with queueLimit := q2 } sched)) := by
  have hstep := step_queueLimit c q1 q2
  have hexec : ∀ sched, exec { c with queueLimit := q1 } sched
      = exec { c with queueLimit := q2 } sched := by
    intro sched
    induction sched using List.reverseRecOn with
    | nil => rfl
    | append_singleton xs a ih =>
      rw [exec_append, exec_append, ih]
      simp [execFrom, next, hstep]
  refine ⟨hstep, hexec, fun sched => ?_⟩
  rw [hexec]
  simp only [Terminal, hstep]

/-- C8 at three workers doubling 1..5 with `queueLimit` 0 and 100. -/
theorem queueLimit_is_unused_witness :
    (exec { doubling with queueLimit := 100 } (roundRobin 14)).output = [2, 4, 6, 8, 10] ∧
    exec { doubling with queueLimit := 0 } (roundRobin 14)
      = exec { doubling with queueLimit := 100 } (roundRobin 14) :=
  ⟨by decide, (queueLimit_is_unused doubling 0 100).2.1 _⟩

/-- C9 as stated fails: with one worker and an empty, closed input, after the worker has
executed `wg.Done()` the counter has gone from 1 back to 0 while the output is
still open, the closing goroutine being still at `wg.Wait()`. -/
theorem closed_iff_counter_zero_counterexample :
    (exec lone (untilDone.take 7)).wg = 1 ∧
    (exec lone untilDone).wg = 0 ∧
    (exec lone untilDone).closer = .waiting ∧
    (exec lone untilDone).outputClosed = false ∧
    ¬ ((exec lone untilDone).outputClosed = true ↔ (exec lone untilDone).wg = 0) := by
  decide

/-- C9, amended. In every state of every run: the counter equals the number of workers
that have not completed `wg.Done()`, plus one between a `wg.Add(1)` and the `go`
statement that follows it; if the output is closed then the counter is zero and every
worker has exited; the output has been closed at most once; and in a complete run that
did not panic the output is closed if and only if the counter is zero. -/
theorem closed_only_if_counter_zero (c : Setup α) (sched : List Action) :
    (exec c sched).wg
      = (tally live (exec c sched).workers : Int) + (exec c sched).mainPc.added ∧
    ((exec c sched).outputClosed = true →
      (exec c sched).wg = 0 ∧ ∀ w ∈ (exec c sched).workers, w.pc = .exited) ∧
    (exec c sched).closes ≤ 1 ∧
    (Terminal c (exec c sched) → (exec c sched).fault = none →
      ((exec c sched).outputClosed = true ↔ (exec c sched).wg = 0)) := by
  have hC := control_exec c sched
  refine ⟨hC.counter, fun hcl => ?_, ?_, fun ht hf => ⟨fun hcl => ?_, fun hz => ?_⟩⟩
  · have hfin : (exec c sched).closer = .closing ∨ (exec c sched).closer = .finished :=
      Or.inr (hC.closed.1 hcl)
    exact ⟨hC.waited hfin, (exited_of_waited hC hfin).2.1⟩
  · rw [hC.closes]
    split <;> omega
  · exact hC.waited (Or.inr (hC.closed.1 hcl))
  · apply closed_of_terminal_exited hC ht hf
    apply exited_of_live_zero
    have h1 := hC.counter
    have h2 := added_nonneg (exec c sched).mainPc
    omega

/-- C9, amended, at one worker and an empty input. -/
theorem closed_only_if_counter_zero_witness :
    (exec lone (untilDone ++ [.closer, .closer])).outputClosed = true ∧
    (exec lone (untilDone ++ [.closer, .closer])).wg = 0 :=
  ⟨by decide,
   ((closed_only_if_counter_zero lone (untilDone ++ [.closer, .closer])).2.1
     (by decide)).1⟩

theorem ticker_eta (t : Ticker) (h : t.stopped = true) :
    ({ t with stopped := true } : Ticker) = t := by
  cases t
  simp_all

/-- With the ticker stopped and its channel empty, one step changes neither the ticker
nor a worker that waits for a token, and neither delivers nor takes a token. -/
theorem stalled_moves {c : Setup α} {s s' : State α} (hC : Control c s)
    {t : Ticker} {k : Nat} {w : Worker α} {item : α}
    (hl : s.limiter = some t) (hs : t.stopped = true) (hp : t.pending = false)
    (hw : s.workers[k]? = some w) (hpc : w.pc = .waitToken item)
    (h : Moves c s s') :
    s'.limiter = some t ∧ s'.workers[k]? = some w ∧ s'.ticks = s.ticks ∧
      s'.tokensTaken = s.tokensTaken := by
  have hset : ∀ (j : Nat) (v v' : Worker α), s.workers[j]? = some v → v.pc ≠ w.pc →
      (s.workers.set j v')[k]? = some w := by
    intro j v v' hv hne
    have hjk : j ≠ k := by
      rintro rfl
      rw [hw] at hv
      cases hv
      exact hne rfl
    rw [List.getElem?_set_ne hjk]
    exact hw
  cases h
  case tick t' h' hs' hp' =>
    rw [hl] at h'
    cases h'
    rw [hs] at hs'
    cases hs'
  case newTicker h' hu hr =>
    rw [hC.entry h'] at hl
    cases hl
  case noTicker h' hu =>
    rw [hC.entry h'] at hl
    cases hl
  case stopTicker t' h' ht' =>
    rw [hl] at ht'
    cases ht'
    exact ⟨by simp [ticker_eta t hs], hw, rfl, rfl⟩
  case ret h' ht' =>
    rw [hl] at ht'
    cases ht'
  case token j v item' t' hv hpc' ht' hp' =>
    rw [hl] at ht'
    cases ht'
    rw [hp] at hp'
    cases hp'
  case spawn i h' =>
    refine ⟨hl, ?_, rfl, rfl⟩
    have hk : k < s.workers.length := by
      rw [List.getElem?_eq_some] at hw
      exact hw.1
    show (s.workers ++ _)[k]? = some w
    rw [List.getElem?_append_left hk]
    exact hw
  case recv j v item' rest hv hpc' hin =>
    exact ⟨hl, hset j v _ hv (by rw [hpc', hpc]; simp), rfl, rfl⟩
  case rangeEnd j v hv hpc' hin hcl =>
    exact ⟨hl, hset j v _ hv (by rw [hpc', hpc]; simp), rfl, rfl⟩
  case callError j v item' err hv hpc' hf =>
    exact ⟨hl, hset j v _ hv (by rw [hpc', hpc]; simp), rfl, rfl⟩
  case callOk j v item' result hv hpc' hf =>
    exact ⟨hl, hset j v _ hv (by rw [hpc', hpc]; simp), rfl, rfl⟩
  case write j v result hv hpc' ho =>
    exact ⟨hl, hset j v _ hv (by rw [hpc', hpc]; simp), rfl, rfl⟩
  case done j v hv hpc' hn =>
    exact ⟨hl, hset j v _ hv (by rw [hpc', hpc]; simp), rfl, rfl⟩
  all_goals exact ⟨hl, hw, rfl, rfl⟩

/-- With the ticker stopped, one step delivers no tick and leaves the ticker stopped. -/
theorem stopped_moves {c : Setup α} {s s' : State α} (hC : Control c s)
    {t : Ticker} (hl : s.limiter = some t) (hs : t.stopped = true) (h : Moves c s s') :
    (∃ t', s'.limiter = some t' ∧ t'.stopped = true) ∧ s'.ticks = s.ticks := by
  cases h
  case tick t' h' hs' hp' =>
    rw [hl] at h'
    cases h'
    rw [hs] at hs'
    cases hs'
  case newTicker h' hu hr =>
    rw [hC.entry h'] at hl
    cases hl
  case noTicker h' hu =>
    rw [hC.entry h'] at hl
    cases hl
  case stopTicker t' h' ht' => exact ⟨⟨_, rfl, rfl⟩, rfl⟩
  case token j v item' t' hv hpc' ht' hp' =>
    rw [hl] at ht'
    cases ht'
    exact ⟨⟨_, rfl, hs⟩, rfl⟩
  all_goals exact ⟨⟨t, hl, hs⟩, rfl⟩

/-- With the ticker stopped and its channel empty, one step leaves the ticker as it is
and neither delivers nor takes a token. -/
theorem quiet_moves {c : Setup α} {s s' : State α} (hC : Control c s)
    {t : Ticker} (hl : s.limiter = some t) (hs : t.stopped = true)
    (hp : t.pending = false) (h : Moves c s s') :
    s'.limiter = some t ∧ s'.ticks = s.ticks ∧ s'.tokensTaken = s.tokensTaken := by
  cases h
  case tick t' h' hs' hp' =>
    rw [hl] at h'
    cases h'
    rw [hs] at hs'
    cases hs'
  case newTicker h' hu hr =>
    rw [hC.entry h'] at hl
    cases hl
  case noTicker h' hu =>
    rw [hC.entry h'] at hl
    cases hl
  case stopTicker t' h' ht' =>
    rw [hl] at ht'
    cases ht'
    exact ⟨by simp [ticker_eta t hs], rfl, rfl⟩
  case ret h' ht' =>
    rw [hl] at ht'
    cases ht'
  case token j v item' t' hv hpc' ht' hp' =>
    rw [hl] at ht'
    cases ht'
    rw [hp] at hp'
    cases hp'
  all_goals exact ⟨hl, rfl, rfl⟩

/-- C10. In every state of every run the ticker is stopped exactly when `StartWorkers`
has returned, whatever the workers are doing.  From a state with the ticker stopped, no
continuation delivers another tick, and at most the one pending token can still be
taken.  If moreover no token is pending, then in every continuation no token is taken,
every worker that is waiting for a token is still waiting for it, the counter stays
positive and the output stays open. -/
theorem stopped_ticker_stalls_workers (c : Setup α) (sched : List Action) :
    (∀ t, (exec c sched).limiter = some t →
      (t.stopped = true ↔ (exec c sched).mainPc = .returned)) ∧
    (∀ t, (exec c sched).limiter = some t → t.stopped = true → ∀ more,
      (execFrom c (exec c sched) more).ticks = (exec c sched).ticks ∧
      (execFrom c (exec c sched) more).tokensTaken
        ≤ (exec c sched).tokensTaken + pendingTokens (exec c sched).limiter) ∧
    (∀ t, (exec c sched).limiter = some t → t.stopped = true → t.pending = false →
      ∀ more,
      (execFrom c (exec c sched) more).tokensTaken = (exec c sched).tokensTaken ∧
      ∀ (k : Nat) (w : Worker α) (item : α),
        (exec c sched).workers[k]? = some w → w.pc = .waitToken item →
        (execFrom c (exec c sched) more).workers[k]? = some w ∧
        1 ≤ (execFrom c (exec c sched) more).wg ∧
        (execFrom c (exec c sched) more).closer ≠ .finished ∧
        (execFrom c (exec c sched) more).outputClosed = false) := by
  classical
  have hC := control_exec c sched
  have hD := data_exec c sched
  refine ⟨fun t ht => (hC.ticker t ht).2.2, fun t ht hs more => ?_,
    fun t ht hs hp more => ?_⟩
  · have hinv := execFrom_induction c
      (fun s' => Control c s' ∧ (∃ t', s'.limiter = some t' ∧ t'.stopped = true) ∧
        s'.ticks = (exec c sched).ticks)
      (exec c sched) ⟨hC, ⟨t, ht, hs⟩, rfl⟩
      (fun s a s' hI h => by
        obtain ⟨hC1, ⟨t1, ht1, hs1⟩, hk⟩ := hI
        have hm := moves_of_step h
        have := stopped_moves hC1 ht1 hs1 hm
        exact ⟨control_step hC1 h, this.1, by rw [this.2, hk]⟩) more
    have hD' := (invariants_execFrom hC hD more).2
    have h1 := hD'.tokens
    have h2 := hD.tokens
    exact ⟨hinv.2.2, by omega⟩
  · have hstall : ∀ (k : Nat) (w : Worker α) (item : α),
        (exec c sched).workers[k]? = some w → w.pc = .waitToken item →
        Control c (execFrom c (exec c sched) more) ∧
        (execFrom c (exec c sched) more).limiter = some t ∧
        (execFrom c (exec c sched) more).workers[k]? = some w := by
      intro k w item hw hpc
      have hinv := execFrom_induction c
        (fun s' => Control c s' ∧ s'.limiter = some t ∧ s'.workers[k]? = some w)
        (exec c sched) ⟨hC, ht, hw⟩
        (fun s a s' hI h => by
          obtain ⟨hC1, ht1, hw1⟩ := hI
          have := stalled_moves hC1 ht1 hs hp hw1 hpc (moves_of_step h)
          exact ⟨control_step hC1 h, this.1, this.2.1⟩) more
      exact hinv
    have htok : (execFrom c (exec c sched) more).tokensTaken
        = (exec c sched).tokensTaken := by
      have hinv := execFrom_induction c
        (fun s' => Control c s' ∧ s'.limiter = some t ∧
          s'.tokensTaken = (exec c sched).tokensTaken)
        (exec c sched) ⟨hC, ht, rfl⟩
        (fun s a s' hI h => by
          obtain ⟨hC1, ht1, hk⟩ := hI
          have := quiet_moves hC1 ht1 hs hp (moves_of_step h)
          exact ⟨control_step hC1 h, this.1, by rw [this.2.2, hk]⟩) more
      exact hinv.2.2
    refine ⟨htok, fun k w item hw hpc => ?_⟩
    obtain ⟨hC', _, hw'⟩ := hstall k w item hw hpc
    have hwg := one_le_counter hC'.counter hw' (by simp [live, hpc])
    have hnf : (execFrom c (exec c sched) more).closer ≠ .finished := by
      intro hfin
      have := hC'.waited (Or.inr hfin)
      omega
    refine ⟨hw', hwg, hnf, ?_⟩
    cases hcl : (execFrom c (exec c sched) more).outputClosed with
    | false => rfl
    | true => exact absurd (hC'.closed.1 hcl) hnf

/-- C10 on a run in which `StartWorkers` returns before the first tick: both workers
hold an item and wait for a token, the third item is never received, and after any
further scheduling, timer included, the workers are still waiting and the output is
still open. -/
theorem stopped_ticker_stalls_workers_witness :
    (exec throttled promptReturn).limiter
      = some { period := 1000, pending := false, stopped := true } ∧
    (exec throttled promptReturn).workers.map (fun w => w.pc)
      = [.waitToken 1, .waitToken 2] ∧
    (exec throttled promptReturn).input = [3] ∧
    Terminal throttled (exec throttled promptReturn) ∧
    (execFrom throttled (exec throttled promptReturn)
      (.tick :: roundRobin 3)).workers[0]?
      = some { id := 1, pc := .waitToken 1, recvd := [1], called := [], wrote := [] } ∧
    (execFrom throttled (exec throttled promptReturn)
      (.tick :: roundRobin 3)).outputClosed = false :=
  ⟨by decide, by decide, by decide, terminal_of_terminalB (by decide),
   (((stopped_ticker_stalls_workers throttled promptReturn).2.2
      { period := 1000, pending := false, stopped := true } (by decide) rfl rfl
      (.tick :: roundRobin 3)).2 0
      { id := 1, pc := .waitToken 1, recvd := [1], called := [], wrote := [] } 1
      (by decide) rfl).1,
   (((stopped_ticker_stalls_workers throttled promptReturn).2.2
      { period := 1000, pending := false, stopped := true } (by decide) rfl rfl
      (.tick :: roundRobin 3)).2 0
      { id := 1, pc := .waitToken 1, recvd := [1], called := [], wrote := [] } 1
      (by decide) rfl).2.2.2⟩

end Claims
